import Mathlib

/-!
Shallow embedding of the `pglike` SQL dialect translator (drummonds/go-postgres).

The translator is a token-level rewriter: `Tokenize` lexes a PostgreSQL
statement into a flat token vector, a fixed sequence of passes rewrites the
vector, and `Reassemble` concatenates the `raw` field of every token.

Strings are modelled as `List Char` (Go iterates over `[]rune`).  Every
definition below mirrors the corresponding Go function and keeps its name.
`unicode.IsSpace` / `IsLetter` / `IsDigit` are modelled by `Char.isWhitespace`
/ `Char.isAlpha` / `Char.isDigit`, and `strings.ToUpper` / `ToLower` by
mapping `Char.toUpper` / `Char.toLower` (the inputs of interest are ASCII,
where these agree).  Go byte slicing of string literals is modelled as rune
slicing; the sliced delimiters (`E'`, quotes) are ASCII, where both agree.
-/

/-- Token kinds; mirrors the Go `TokenKind` constants `TokKeyword` … `TokDot`. -/
inductive TokenKind where
  | keyword
  | ident
  | string
  | number
  | operator
  | param
  | paren
  | comma
  | semicolon
  | whitespace
  | comment
  | dot
deriving DecidableEq, Repr

/-- A single SQL token; mirrors the Go `Token` struct. -/
structure Token where
  kind : TokenKind
  value : List Char
  raw : List Char
deriving DecidableEq, Repr

/-- Shorthand for the Go literal `Token{Kind: k, Value: v, Raw: v}` (synthesized
tokens have `raw = value`). -/
def mkTok (k : TokenKind) (v : String) : Token :=
  ⟨k, v.toList, v.toList⟩

/-- The Go keyword set `sqlKeywords` (uppercase names). -/
def sqlKeywords : List (List Char) :=
  [ "SELECT", "FROM", "WHERE", "INSERT", "INTO",
    "UPDATE", "DELETE", "CREATE", "TABLE", "DROP",
    "ALTER", "ADD", "COLUMN", "INDEX", "IF",
    "NOT", "EXISTS", "NULL", "DEFAULT", "PRIMARY",
    "KEY", "UNIQUE", "CHECK", "FOREIGN", "REFERENCES",
    "ON", "SET", "VALUES", "AND", "OR",
    "IN", "IS", "AS", "JOIN", "LEFT",
    "RIGHT", "INNER", "OUTER", "CROSS", "FULL",
    "ORDER", "BY", "ASC", "DESC", "GROUP",
    "HAVING", "LIMIT", "OFFSET", "UNION", "ALL",
    "DISTINCT", "CASE", "WHEN", "THEN", "ELSE",
    "END", "BETWEEN", "LIKE", "ILIKE", "SIMILAR",
    "TO", "CAST", "TRUE", "FALSE", "BEGIN",
    "COMMIT", "ROLLBACK", "RETURNING", "WITH",
    "RECURSIVE", "EXCEPT", "INTERSECT", "CONSTRAINT",
    "CASCADE", "RESTRICT", "AUTOINCREMENT",
    "SERIAL", "BIGSERIAL", "SMALLSERIAL",
    "BOOLEAN", "BOOL",
    "VARCHAR", "CHARACTER", "VARYING", "CHAR",
    "TEXT", "INTEGER", "INT", "INT2", "INT4",
    "INT8", "SMALLINT", "BIGINT",
    "REAL", "FLOAT4", "FLOAT8", "DOUBLE", "PRECISION",
    "NUMERIC", "DECIMAL",
    "TIMESTAMP", "TIMESTAMPTZ", "DATE", "TIME", "TIMETZ",
    "UUID", "BYTEA", "JSON", "JSONB", "BLOB",
    "ZONE",
    "NOW", "CURRENT_DATE", "CURRENT_TIME", "CURRENT_TIMESTAMP",
    "EXTRACT", "COALESCE", "NULLIF",
    "REPLACE", "CONFLICT", "DO", "NOTHING",
    "OVER", "PARTITION", "WINDOW", "ROW", "ROWS",
    "RANGE", "PRECEDING", "FOLLOWING", "UNBOUNDED",
    "CURRENT", "EXCLUDE", "TIES", "OTHERS",
    "NO", "ACTION", "DEFERRABLE", "INITIALLY",
    "DEFERRED", "IMMEDIATE", "ONLY", "TEMPORARY",
    "TEMP", "UNLOGGED", "MATERIALIZED", "VIEW",
    "USING", "NATURAL", "LATERAL", "FETCH",
    "FIRST", "LAST", "NEXT", "PRIOR",
    "ABSOLUTE", "RELATIVE", "FORWARD", "BACKWARD",
    "SOME", "ANY", "EVERY", "ARRAY",
    "INTERVAL", "WITHOUT",
    "NULLS", "SEQUENCE", "INCREMENT", "START",
    "MINVALUE", "MAXVALUE", "CYCLE", "OWNED",
    "EXPLAIN", "ANALYZE", "VERBOSE", "PLAN",
    "QUERY" ].map String.toList

/-- Character class for identifiers and dollar-quote tags:
`'_' || unicode.IsLetter || unicode.IsDigit`. -/
def isIdentChar (c : Char) : Bool :=
  c = '_' || c.isAlpha || c.isDigit

/-- The digits-and-dots class of the Go number scanner. -/
def isNumChar (c : Char) : Bool :=
  c.isDigit || c = '.'

/-- Scanner for a block comment body, mirroring the loop of the Go `/* */`
branch of `Tokenize`: it runs while `i+1 < n` and the pair `*/` has not been
reached, and consumes the closing `*/` iff it was found.  The argument is the
text after the opening `/*`; the result is `(consumed body, remaining input)`. -/
def scanBlockComment : List Char → List Char × List Char
  | [] => ([], [])
  | [c] => ([], [c])
  | c :: c2 :: r =>
    if c = '*' ∧ c2 = '/' then (['*', '/'], r)
    else
      let p := scanBlockComment (c2 :: r)
      (c :: p.1, p.2)

/-- Scanner for an `E'...'` body, mirroring the Go loop: a backslash followed
by any character is skipped as a pair, a quote terminates.  Argument is the
text after `E'`; result `(consumed, rest)`. -/
def scanEString : List Char → List Char × List Char
  | [] => ([], [])
  | [c] => ([c], [])
  | c :: c2 :: r =>
    if c = '\\' then
      let p := scanEString r
      ('\\' :: c2 :: p.1, p.2)
    else if c = '\'' then (['\''], c2 :: r)
    else
      let p := scanEString (c2 :: r)
      (c :: p.1, p.2)

/-- Scanner for a `'...'` body, mirroring the Go loop: `''` is an embedded
quote, a lone quote terminates.  Argument is the text after the opening
quote; result `(consumed, rest)`. -/
def scanSString : List Char → List Char × List Char
  | [] => ([], [])
  | [c] => ([c], [])
  | c :: c2 :: r =>
    if c = '\'' ∧ c2 = '\'' then
      let p := scanSString r
      ('\'' :: '\'' :: p.1, p.2)
    else if c = '\'' then (['\''], c2 :: r)
    else
      let p := scanSString (c2 :: r)
      (c :: p.1, p.2)

/-- Scanner for a quoted identifier body (text after the opening `"`); the
closing quote is consumed when present (mirrors the Go loop
`for i < n && runes[i] != '"' { i++ }; if i < n { i++ }`). -/
def scanQIdent : List Char → List Char × List Char
  | [] => ([], [])
  | c :: r =>
    if c = '"' then (['"'], r)
    else
      let p := scanQIdent r
      (c :: p.1, p.2)

/-- Exponent part of the Go number scanner: an optional `e`/`E`, an optional
sign, then a digit run. -/
def scanExp : List Char → List Char × List Char
  | [] => ([], [])
  | c :: r =>
    if c = 'e' ∨ c = 'E' then
      match r with
      | c2 :: r2 =>
        if c2 = '+' ∨ c2 = '-' then
          (c :: c2 :: r2.takeWhile Char.isDigit, r2.dropWhile Char.isDigit)
        else
          (c :: r.takeWhile Char.isDigit, r.dropWhile Char.isDigit)
      | [] => ([c], [])
    else ([], c :: r)

/-- First index at which `tag` occurs as a prefix of a tail of `u`; mirrors
the closing-tag search loop of the Go `tryDollarQuote`. -/
def findTagIdx (tag : List Char) (u : List Char) : Option Nat :=
  if tag.isPrefixOf u then some 0
  else
    match u with
    | [] => none
    | _ :: r => (findTagIdx tag r).map (· + 1)

/-- Parses the opening tag of a dollar-quoted string from the text after the
initial `$`: either a second `$` (tag `$$`) or `identifier$`; mirrors the
tag-parsing part of the Go `tryDollarQuote`. -/
def dollarTag (r : List Char) : Option (List Char) :=
  match r with
  | [] => none
  | c :: _ =>
    if c = '$' then some ['$', '$']
    else if c = '_' ∨ c.isAlpha then
      match r.dropWhile isIdentChar with
      | '$' :: _ => some ('$' :: r.takeWhile isIdentChar ++ ['$'])
      | _ => none
    else none

/-- Closing-tag search and slicing part of the Go `tryDollarQuote`, applied to
the whole input `s` and the parsed opening tag (if any). -/
def dollarQuoteWith (s : List Char) : Option (List Char) →
    Option (List Char × List Char × List Char)
  | none => none
  | some tag =>
    match findTagIdx tag (s.drop tag.length) with
    | none => none
    | some q =>
      some (tag, (s.drop tag.length).take q,
        (s.drop tag.length).drop (q + tag.length))

/-- Mirrors the Go `tryDollarQuote`: if the input starts a dollar-quoted
string `$tag$…$tag$`, returns `(tag, content, rest)` where `content` is the
text strictly between the tags and `rest` the input after the closing tag. -/
def tryDollarQuote (s : List Char) : Option (List Char × List Char × List Char) :=
  match s with
  | [] => none
  | c :: r =>
    if c = '$' then dollarQuoteWith (c :: r) (dollarTag r)
    else none

/-- Replaces every `'` by `''`; mirrors `strings.ReplaceAll(content, "'", "''")`
as used for dollar-quoted strings and E-strings. -/
def doubleQuotes : List Char → List Char
  | [] => []
  | c :: r =>
    if c = '\'' then '\'' :: '\'' :: doubleQuotes r
    else c :: doubleQuotes r

theorem dropWhile_length_le (p : Char → Bool) (l : List Char) :
    (l.dropWhile p).length ≤ l.length := by
  induction l with
  | nil => simp
  | cons a l ih =>
    by_cases h : p a
    · rw [List.dropWhile_cons_of_pos h]
      exact Nat.le_succ_of_le ih
    · rw [List.dropWhile_cons_of_neg h]

theorem scanBlockComment_len (u : List Char) :
    (scanBlockComment u).2.length ≤ u.length := by
  induction u with
  | nil => simp [scanBlockComment]
  | cons c r ih =>
    match r with
    | [] => simp [scanBlockComment]
    | c2 :: r2 =>
      rw [scanBlockComment]
      split
      · simp; omega
      · simpa using Nat.le_succ_of_le ih

theorem scanEString_len : ∀ (u : List Char), (scanEString u).2.length ≤ u.length
  | [] => by simp [scanEString]
  | [c] => by simp [scanEString]
  | c :: c2 :: r => by
    have h1 := scanEString_len r
    have h2 := scanEString_len (c2 :: r)
    simp only [scanEString]
    split
    · simp; omega
    · split
      · simp
      · simp at h2 ⊢; omega

theorem scanSString_len : ∀ (u : List Char), (scanSString u).2.length ≤ u.length
  | [] => by simp [scanSString]
  | [c] => by simp [scanSString]
  | c :: c2 :: r => by
    have h1 := scanSString_len r
    have h2 := scanSString_len (c2 :: r)
    simp only [scanSString]
    split
    · simp; omega
    · split
      · simp
      · simp at h2 ⊢; omega

theorem scanQIdent_len : ∀ (u : List Char), (scanQIdent u).2.length ≤ u.length
  | [] => by simp [scanQIdent]
  | c :: r => by
    have ih := scanQIdent_len r
    simp only [scanQIdent]
    split
    · simp
    · simp only [List.length_cons]
      omega

theorem scanExp_len : ∀ (u : List Char), (scanExp u).2.length ≤ u.length
  | [] => by simp [scanExp]
  | c :: r => by
    simp only [scanExp]
    split
    · cases r with
      | nil => simp
      | cons c2 r2 =>
        simp only
        split
        · have := dropWhile_length_le Char.isDigit r2
          simp; omega
        · have := dropWhile_length_le Char.isDigit (c2 :: r2)
          simp at this ⊢; omega
    · simp

theorem dollarTag_length {r tag} (h : dollarTag r = some tag) : 2 ≤ tag.length := by
  unfold dollarTag at h
  match r with
  | [] => simp at h
  | c :: cs =>
    simp only at h
    split at h
    · simp at h; subst h; simp
    · split at h
      · split at h
        · simp at h; subst h; simp
        · simp at h
      · simp at h

theorem dollarQuoteWith_rest_lt {s : List Char} {o tag content rest}
    (hs : 0 < s.length) (hlen : ∀ t, o = some t → 2 ≤ t.length)
    (h : dollarQuoteWith s o = some (tag, content, rest)) : rest.length < s.length := by
  match o with
  | none => simp [dollarQuoteWith] at h
  | some tg =>
    have h2 := hlen tg rfl
    simp only [dollarQuoteWith] at h
    split at h
    · simp at h
    · rename_i q hq
      simp only [Option.some.injEq, Prod.mk.injEq] at h
      obtain ⟨h1, _, h3⟩ := h
      have h4 := congrArg List.length h3
      simp [List.length_drop] at h4
      omega

theorem tryDollarQuote_rest_lt {s tag content rest}
    (h : tryDollarQuote s = some (tag, content, rest)) : rest.length < s.length := by
  match s with
  | [] => simp [tryDollarQuote] at h
  | c :: r =>
    simp only [tryDollarQuote] at h
    split at h
    · exact dollarQuoteWith_rest_lt (by simp) (fun t ht => dollarTag_length ht) h
    · simp at h

/-- Mirrors the Go `Tokenize`: splits a SQL string into tokens.  The branch
order reproduces the order of the checks in the Go scanning loop. -/
def Tokenize (s : List Char) : List Token :=
  match s with
  | [] => []
  | ch :: rest =>
    -- Whitespace
    if ch.isWhitespace then
      let raw := ch :: rest.takeWhile Char.isWhitespace
      ⟨.whitespace, raw, raw⟩ :: Tokenize (rest.dropWhile Char.isWhitespace)
    -- Line comment
    else if ch = '-' ∧ rest.head? = some '-' then
      let raw := ch :: rest.takeWhile (fun c => c ≠ '\n')
      ⟨.comment, raw, raw⟩ :: Tokenize (rest.dropWhile (fun c => c ≠ '\n'))
    -- Block comment
    else if ch = '/' ∧ rest.head? = some '*' then
      let p := scanBlockComment rest.tail
      let raw := '/' :: '*' :: p.1
      ⟨.comment, raw, raw⟩ :: Tokenize p.2
    -- Escape string E'...'
    else if (ch = 'E' ∨ ch = 'e') ∧ rest.head? = some '\'' then
      let p := scanEString rest.tail
      let raw := ch :: '\'' :: p.1
      ⟨.string, raw, raw⟩ :: Tokenize p.2
    -- String literal
    else if ch = '\'' then
      let p := scanSString rest
      let raw := '\'' :: p.1
      ⟨.string, raw, raw⟩ :: Tokenize p.2
    -- Quoted identifier
    else if ch = '"' then
      let p := scanQIdent rest
      let raw := '"' :: p.1
      ⟨.ident, raw, raw⟩ :: Tokenize p.2
    -- Dollar-quoted string, then parameter, then lone dollar
    else if ch = '$' then
      if hdq : (tryDollarQuote (ch :: rest)).isSome then
        let newRaw := '\'' ::
          (doubleQuotes ((tryDollarQuote (ch :: rest)).get hdq).2.1 ++ ['\''])
        ⟨.string, newRaw, newRaw⟩ ::
          Tokenize ((tryDollarQuote (ch :: rest)).get hdq).2.2
      else
        if (rest.head?.map Char.isDigit).getD false then
          let raw := ch :: rest.takeWhile Char.isDigit
          ⟨.param, raw, raw⟩ :: Tokenize (rest.dropWhile Char.isDigit)
        else
          mkTok .operator "$" :: Tokenize rest
    -- Number
    else if ch.isDigit ∨ (ch = '.' ∧ (rest.head?.map Char.isDigit).getD false) then
      let d := rest.takeWhile isNumChar
      let p := scanExp (rest.dropWhile isNumChar)
      let raw := ch :: (d ++ p.1)
      ⟨.number, raw, raw⟩ :: Tokenize p.2
    -- Cast operator
    else if ch = ':' ∧ rest.head? = some ':' then
      mkTok .operator "::" :: Tokenize rest.tail
    -- Regex operators
    else if ch = '!' ∧ rest.head? = some '~' then
      if rest.tail.head? = some '*' then
        mkTok .operator "!~*" :: Tokenize rest.tail.tail
      else
        mkTok .operator "!~" :: Tokenize rest.tail
    else if ch = '~' ∧ rest.head? = some '*' then
      mkTok .operator "~*" :: Tokenize rest.tail
    -- Multi-char comparison operators
    else if ch = '<' ∨ ch = '>' ∨ ch = '!' ∨ ch = '=' then
      match rest with
      | c2 :: r2 =>
        if c2 = '=' ∨ c2 = '>' then
          ⟨.operator, [ch, c2], [ch, c2]⟩ :: Tokenize r2
        else
          ⟨.operator, [ch], [ch]⟩ :: Tokenize (c2 :: r2)
      | [] => [⟨.operator, [ch], [ch]⟩]
    -- JSON operators
    else if ch = '-' ∧ rest.head? = some '>' then
      if rest.tail.head? = some '>' then
        mkTok .operator "->>" :: Tokenize rest.tail.tail
      else
        mkTok .operator "->" :: Tokenize rest.tail
    -- Concatenation
    else if ch = '|' ∧ rest.head? = some '|' then
      mkTok .operator "||" :: Tokenize rest.tail
    -- Single-char operators
    else if ch = '+' ∨ ch = '-' ∨ ch = '*' ∨ ch = '/' ∨ ch = '%' ∨ ch = '|' ∨
        ch = '&' ∨ ch = '~' ∨ ch = ':' then
      ⟨.operator, [ch], [ch]⟩ :: Tokenize rest
    -- Parentheses
    else if ch = '(' ∨ ch = ')' then
      ⟨.paren, [ch], [ch]⟩ :: Tokenize rest
    else if ch = ',' then
      mkTok .comma "," :: Tokenize rest
    else if ch = ';' then
      mkTok .semicolon ";" :: Tokenize rest
    else if ch = '.' then
      mkTok .dot "." :: Tokenize rest
    -- Keyword or identifier
    else if ch = '_' ∨ ch.isAlpha then
      let raw := ch :: rest.takeWhile isIdentChar
      let upper := raw.map Char.toUpper
      (if sqlKeywords.contains upper then (⟨.keyword, upper, raw⟩ : Token)
       else ⟨.ident, raw, raw⟩) :: Tokenize (rest.dropWhile isIdentChar)
    -- Unknown character
    else
      ⟨.operator, [ch], [ch]⟩ :: Tokenize rest
termination_by s.length
decreasing_by
  all_goals simp only [List.length_cons]
  all_goals first
    | omega
    | (apply Nat.lt_succ_of_le; apply dropWhile_length_le)
    | (rename_i hdq
       simpa using tryDollarQuote_rest_lt ((Option.some_get hdq).symm))
    | (refine lt_of_le_of_lt (scanBlockComment_len _) ?_; simp [List.length_tail]; omega)
    | (refine lt_of_le_of_lt (scanEString_len _) ?_; simp [List.length_tail]; omega)
    | (refine lt_of_le_of_lt (scanSString_len _) ?_; omega)
    | (refine lt_of_le_of_lt (scanQIdent_len _) ?_; omega)
    | (refine lt_of_le_of_lt (scanExp_len _) ?_;
       refine lt_of_le_of_lt (dropWhile_length_le _ _) ?_; omega)
    | (simp [List.length_tail]; omega)

/-- Mirrors the Go `Reassemble`: concatenates the `raw` field of every token. -/
def Reassemble (tokens : List Token) : List Char :=
  (tokens.map Token.raw).flatten

/-- Index of the first non-whitespace token at or after `j`; mirrors the Go
lookahead loops `for j < len(tokens) && tokens[j].Kind == TokWhitespace`. -/
def skipWsIdx (ts : List Token) (j : Nat) : Nat :=
  if h : j < ts.length then
    if ts[j].kind = .whitespace then skipWsIdx ts (j + 1) else j
  else j
termination_by ts.length - j

theorem skipWsIdx_ge (ts : List Token) (j : Nat) : j ≤ skipWsIdx ts j := by
  rw [skipWsIdx]
  split
  · split
    · have := skipWsIdx_ge ts (j + 1)
      omega
    · exact Nat.le_refl j
  · exact Nat.le_refl j
termination_by ts.length - j

/-- `tokens[j]` exists, is a Keyword and has value `v`. -/
def isKwAt (ts : List Token) (j : Nat) (v : String) : Bool :=
  match ts[j]? with
  | some t => t.kind == .keyword && t.value == v.toList
  | none => false

/-- `tokens[j]` exists, is a Paren and has value `v`. -/
def isParenAt (ts : List Token) (j : Nat) (v : String) : Bool :=
  match ts[j]? with
  | some t => t.kind == .paren && t.value == v.toList
  | none => false

/-- Mirrors the Go `peekKeyword`: looks past whitespace for an expected
keyword, returning the index and whether it was found. -/
def peekKeyword (ts : List Token) (start : Nat) (kw : String) : Nat × Bool :=
  if isKwAt ts (skipWsIdx ts start) kw then (skipWsIdx ts start, true)
  else (start, false)

/-- Depth-tracking scan used by the Go `skipParenGroup`: advances while
`j < len(tokens) && depth > 0`, adjusting depth at parens. -/
def parenScan (ts : List Token) (j : Nat) (depth : Nat) : Nat :=
  if h : j < ts.length ∧ 0 < depth then
    parenScan ts (j + 1)
      (if isParenAt ts j "(" then depth + 1
       else if isParenAt ts j ")" then depth - 1 else depth)
  else j
termination_by ts.length - j

theorem parenScan_ge (ts : List Token) (j : Nat) (depth : Nat) :
    j ≤ parenScan ts j depth := by
  rw [parenScan]
  split
  · exact Nat.le_trans (Nat.le_succ j) (parenScan_ge ts (j + 1) _)
  · exact Nat.le_refl j
termination_by ts.length - j

/-- Mirrors the Go `skipParenGroup`: skips whitespace and a parenthesized
group, returning the index of the closing paren, or `start - 1` if there is
no group. -/
def skipParenGroup (ts : List Token) (start : Nat) : Nat :=
  if isParenAt ts (skipWsIdx ts start) "(" then
    parenScan ts (skipWsIdx ts start + 1) 1 - 1
  else start - 1

theorem skipParenGroup_ge (ts : List Token) (start : Nat) :
    start - 1 ≤ skipParenGroup ts start := by
  unfold skipParenGroup
  have h1 := skipWsIdx_ge ts start
  split
  · have h2 := parenScan_ge ts (skipWsIdx ts start + 1) 1
    omega
  · exact Nat.le_refl _

theorem peekKeyword_fst_ge (ts : List Token) (start : Nat) (kw : String) :
    start ≤ (peekKeyword ts start kw).1 := by
  unfold peekKeyword
  have h1 := skipWsIdx_ge ts start
  split
  · simpa using h1
  · exact Nat.le_refl _

/-- The Go `pgTypeToSQLite` map (DDL type table), as an association list. -/
def pgTypeToSQLite : List (List Char × List Char) :=
  [ ("BOOLEAN", "INTEGER"),
    ("BOOL", "INTEGER"),
    ("VARCHAR", "TEXT"),
    ("CHARACTER", "TEXT"),
    ("CHAR", "TEXT"),
    ("TIMESTAMP", "TEXT"),
    ("TIMESTAMPTZ", "TEXT"),
    ("DATE", "TEXT"),
    ("TIME", "TEXT"),
    ("TIMETZ", "TEXT"),
    ("UUID", "TEXT"),
    ("BYTEA", "BLOB"),
    ("JSON", "TEXT"),
    ("JSONB", "TEXT"),
    ("SMALLINT", "INTEGER"),
    ("INT2", "INTEGER"),
    ("INT4", "INTEGER"),
    ("INT8", "INTEGER"),
    ("BIGINT", "INTEGER"),
    ("FLOAT4", "REAL"),
    ("FLOAT8", "REAL") ].map fun p => (p.1.toList, p.2.toList)

/-- Lookup in `pgTypeToSQLite` (Go map indexing `pgTypeToSQLite[v]`). -/
def lookupPgType (v : List Char) : Option (List Char) :=
  (pgTypeToSQLite.find? (fun p => p.1 == v)).map (·.2)

/-- Mirrors the Go `MapType`. -/
def MapType (pgType : List Char) : List Char :=
  match lookupPgType (pgType.map Char.toUpper) with
  | some mapped => mapped
  | none => pgType

/-- Loop body of the Go `translateTypes` (index loop with an output vector). -/
def translateTypesAux (ts : List Token) (i : Nat) (out : List Token) : List Token :=
  if h : i < ts.length then
    let t := ts[i]
    if t.kind ≠ .keyword then translateTypesAux ts (i + 1) (out ++ [t])
    else if t.value = "DOUBLE".toList then
      let pk := peekKeyword ts (i + 1) "PRECISION"
      if pk.2 then translateTypesAux ts (pk.1 + 1) (out ++ [mkTok .keyword "REAL"])
      else translateTypesAux ts (i + 1) (out ++ [t])
    else if t.value = "CHARACTER".toList then
      let j := skipWsIdx ts (i + 1)
      if isKwAt ts j "VARYING" then
        translateTypesAux ts (skipParenGroup ts (j + 1) + 1) (out ++ [mkTok .keyword "TEXT"])
      else
        translateTypesAux ts (skipParenGroup ts (i + 1) + 1) (out ++ [mkTok .keyword "TEXT"])
    else if t.value = "VARCHAR".toList ∨ t.value = "CHAR".toList then
      translateTypesAux ts (skipParenGroup ts (i + 1) + 1) (out ++ [mkTok .keyword "TEXT"])
    else if t.value = "NUMERIC".toList ∨ t.value = "DECIMAL".toList then
      translateTypesAux ts (skipParenGroup ts (i + 1) + 1) (out ++ [mkTok .keyword "REAL"])
    else if t.value = "TIMESTAMP".toList then
      let j := skipWsIdx ts (i + 1)
      if isKwAt ts j "WITH" ∨ isKwAt ts j "WITHOUT" then
        let k := skipWsIdx ts (j + 1)
        if isKwAt ts k "TIME" then
          let l := skipWsIdx ts (k + 1)
          if isKwAt ts l "ZONE" then
            translateTypesAux ts (l + 1) (out ++ [mkTok .keyword "TEXT"])
          else translateTypesAux ts (i + 1) (out ++ [mkTok .keyword "TEXT"])
        else translateTypesAux ts (i + 1) (out ++ [mkTok .keyword "TEXT"])
      else translateTypesAux ts (i + 1) (out ++ [mkTok .keyword "TEXT"])
    else if t.value = "INTERVAL".toList then
      translateTypesAux ts (i + 1) (out ++ [mkTok .keyword "TEXT"])
    else if t.value = "TIME".toList then
      let j := skipWsIdx ts (i + 1)
      if isKwAt ts j "WITH" ∨ isKwAt ts j "WITHOUT" then
        let k := skipWsIdx ts (j + 1)
        if isKwAt ts k "TIME" then
          let l := skipWsIdx ts (k + 1)
          if isKwAt ts l "ZONE" then
            translateTypesAux ts (l + 1) (out ++ [mkTok .keyword "TEXT"])
          else translateTypesAux ts (i + 1) (out ++ [mkTok .keyword "TEXT"])
        else translateTypesAux ts (i + 1) (out ++ [mkTok .keyword "TEXT"])
      else translateTypesAux ts (i + 1) (out ++ [mkTok .keyword "TEXT"])
    else
      match lookupPgType t.value with
      | some mapped => translateTypesAux ts (i + 1) (out ++ [(⟨.keyword, mapped, mapped⟩ : Token)])
      | none => translateTypesAux ts (i + 1) (out ++ [t])
  else out
termination_by ts.length - i
decreasing_by
  all_goals first
    | omega
    | (have h1 := peekKeyword_fst_ge ts (i + 1) "PRECISION"; omega)
    | (have h1 := skipWsIdx_ge ts (i + 1); omega)
    | (have h1 := skipWsIdx_ge ts (i + 1);
       have h2 := skipParenGroup_ge ts (skipWsIdx ts (i + 1) + 1); omega)
    | (have h2 := skipParenGroup_ge ts (i + 1); omega)
    | (have h1 := skipWsIdx_ge ts (i + 1);
       have h2 := skipWsIdx_ge ts (skipWsIdx ts (i + 1) + 1);
       have h3 := skipWsIdx_ge ts (skipWsIdx ts (skipWsIdx ts (i + 1) + 1) + 1); omega)

/-- Mirrors the Go `translateTypes`. -/
def translateTypes (tokens : List Token) : List Token :=
  translateTypesAux tokens 0 []

/-- Loop body of the Go `translateSerial`. -/
def translateSerialAux (ts : List Token) (i : Nat) (out : List Token) : List Token :=
  if h : i < ts.length then
    let t := ts[i]
    if t.kind = .keyword ∧ (t.value = "SERIAL".toList ∨ t.value = "BIGSERIAL".toList ∨
        t.value = "SMALLSERIAL".toList) then
      let out' := out ++ [mkTok .keyword "INTEGER", mkTok .whitespace " ",
        mkTok .keyword "PRIMARY", mkTok .whitespace " ", mkTok .keyword "KEY",
        mkTok .whitespace " ", mkTok .keyword "AUTOINCREMENT"]
      let j := skipWsIdx ts (i + 1)
      if isKwAt ts j "PRIMARY" then
        let k := skipWsIdx ts (j + 1)
        if isKwAt ts k "KEY" then translateSerialAux ts (k + 1) out'
        else translateSerialAux ts (i + 1) out'
      else translateSerialAux ts (i + 1) out'
    else translateSerialAux ts (i + 1) (out ++ [t])
  else out
termination_by ts.length - i
decreasing_by
  all_goals first
    | omega
    | (have h1 := skipWsIdx_ge ts (i + 1);
       have h2 := skipWsIdx_ge ts (skipWsIdx ts (i + 1) + 1); omega)

/-- Mirrors the Go `translateSerial`. -/
def translateSerial (tokens : List Token) : List Token :=
  translateSerialAux tokens 0 []

/-- Loop body of the Go `translateDefaultNow`. -/
def translateDefaultNowAux (ts : List Token) (i : Nat) (out : List Token) : List Token :=
  if h : i < ts.length then
    let t := ts[i]
    if t.kind = .keyword ∧ t.value = "DEFAULT".toList then
      let j := skipWsIdx ts (i + 1)
      if isKwAt ts j "NOW" then
        let k := skipWsIdx ts (j + 1)
        if isParenAt ts k "(" then
          let l := skipWsIdx ts (k + 1)
          if isParenAt ts l ")" then
            translateDefaultNowAux ts (l + 1) (out ++ [t, mkTok .whitespace " ",
              mkTok .paren "(", mkTok .ident "datetime", mkTok .paren "(",
              mkTok .string "'now'", mkTok .paren ")", mkTok .paren ")"])
          else translateDefaultNowAux ts (i + 1) (out ++ [t])
        else translateDefaultNowAux ts (i + 1) (out ++ [t])
      else translateDefaultNowAux ts (i + 1) (out ++ [t])
    else translateDefaultNowAux ts (i + 1) (out ++ [t])
  else out
termination_by ts.length - i
decreasing_by
  all_goals first
    | omega
    | (have h1 := skipWsIdx_ge ts (i + 1);
       have h2 := skipWsIdx_ge ts (skipWsIdx ts (i + 1) + 1);
       have h3 := skipWsIdx_ge ts (skipWsIdx ts (skipWsIdx ts (i + 1) + 1) + 1); omega)

/-- Mirrors the Go `translateDefaultNow`. -/
def translateDefaultNow (tokens : List Token) : List Token :=
  translateDefaultNowAux tokens 0 []

/-- Mirrors the Go `translateDDL` (pass order: types, SERIAL, DEFAULT NOW). -/
def translateDDL (tokens : List Token) : List Token :=
  translateDefaultNow (translateSerial (translateTypes tokens))

/-- Backwards paren matcher used by the Go `extractLeftExpr` and
`findColumnExprStart` loops: starting at index `j` with given depth, walks
left adjusting depth; returns the index where depth reaches zero (the
matching opening paren), or `none` when the walk runs off the front
(Go leaves `j = -1` there). -/
def openBack (out : List Token) (j : Nat) (depth : Nat) : Option Nat :=
  if 0 < (if isParenAt out j ")" then depth + 1
          else if isParenAt out j "(" then depth - 1 else depth) then
    if j = 0 then none
    else openBack out (j - 1)
      (if isParenAt out j ")" then depth + 1
       else if isParenAt out j "(" then depth - 1 else depth)
  else some j
termination_by j

/-- `tokens[j]` exists and is an Identifier or Keyword. -/
def isIdentOrKwAt (ts : List Token) (j : Nat) : Bool :=
  match ts[j]? with
  | some t => t.kind == .ident || t.kind == .keyword
  | none => false

/-- Mirrors the Go `extractLeftExpr`: extracts the expression to the left of
`::` from the already-emitted output tokens.  (On unbalanced parens the Go
code slices with a negative index and panics; that path is modelled as
returning the whole vector and is unreachable for balanced inputs.) -/
def extractLeftExpr (out : List Token) : List Token :=
  match out.getLast? with
  | none => []
  | some last =>
    if last.kind = .paren ∧ last.value = ")".toList then
      match openBack out (out.length - 2) 1 with
      | some j =>
        if 0 < j ∧ isIdentOrKwAt out (j - 1) then out.drop (j - 1)
        else out.drop j
      | none => out
    else
      out.drop (out.length - 1)

/-- Multi-word-type loop of the Go `extractTypeName` (consumes `PRECISION`,
`VARYING`, `ZONE`, `WITH`, `WITHOUT`, `TIME` keywords past whitespace). -/
def extractTypeMulti (ts : List Token) (i : Nat) (result : List Token) :
    List Token × Nat :=
  if h : skipWsIdx ts i < ts.length then
    if (ts.get ⟨skipWsIdx ts i, h⟩).kind = .keyword ∧
        ((ts.get ⟨skipWsIdx ts i, h⟩).value = "PRECISION".toList ∨
         (ts.get ⟨skipWsIdx ts i, h⟩).value = "VARYING".toList ∨
         (ts.get ⟨skipWsIdx ts i, h⟩).value = "ZONE".toList ∨
         (ts.get ⟨skipWsIdx ts i, h⟩).value = "WITH".toList ∨
         (ts.get ⟨skipWsIdx ts i, h⟩).value = "WITHOUT".toList ∨
         (ts.get ⟨skipWsIdx ts i, h⟩).value = "TIME".toList) then
      extractTypeMulti ts (skipWsIdx ts i + 1) (result ++ [ts.get ⟨skipWsIdx ts i, h⟩])
    else (result, i)
  else (result, i)
termination_by ts.length - i
decreasing_by
  have h1 := skipWsIdx_ge ts i
  omega

theorem extractTypeMulti_snd_ge (ts : List Token) (i : Nat) (result : List Token) :
    i ≤ (extractTypeMulti ts i result).2 := by
  rw [extractTypeMulti]
  split
  · split
    · have h1 := skipWsIdx_ge ts i
      have h2 := extractTypeMulti_snd_ge ts (skipWsIdx ts i + 1)
        (result ++ [ts.get ⟨skipWsIdx ts i, by assumption⟩])
      omega
    · exact Nat.le_refl i
  · exact Nat.le_refl i
termination_by ts.length - i
decreasing_by
  have h1 := skipWsIdx_ge ts i
  omega

/-- Trailing `(n)` / `(n,m)` skip of the Go `extractTypeName`, applied to the
index after the consumed type words. -/
def typeNameEnd (ts : List Token) (i : Nat) : Nat :=
  if isParenAt ts (skipWsIdx ts i) "(" then
    parenScan ts (skipWsIdx ts i + 1) 1 - 1
  else i - 1

theorem typeNameEnd_ge (ts : List Token) (i : Nat) : i - 1 ≤ typeNameEnd ts i := by
  unfold typeNameEnd
  have h1 := skipWsIdx_ge ts i
  split
  · have h2 := parenScan_ge ts (skipWsIdx ts i + 1) 1
    omega
  · exact Nat.le_refl _

/-- Mirrors the Go `extractTypeName`: reads a type name starting at `start`,
returning the tokens of the type name and the last index consumed. -/
def extractTypeName (ts : List Token) (start : Nat) : List Token × Nat :=
  if h : skipWsIdx ts start < ts.length then
    if (ts.get ⟨skipWsIdx ts start, h⟩).kind = .keyword ∨
        (ts.get ⟨skipWsIdx ts start, h⟩).kind = .ident then
      ((extractTypeMulti ts (skipWsIdx ts start + 1)
          [ts.get ⟨skipWsIdx ts start, h⟩]).1,
       typeNameEnd ts (extractTypeMulti ts (skipWsIdx ts start + 1)
          [ts.get ⟨skipWsIdx ts start, h⟩]).2)
    else ([], skipWsIdx ts start - 1)
  else ([], start)

theorem extractTypeName_snd_ge (ts : List Token) (start : Nat) :
    start - 1 ≤ (extractTypeName ts start).2 := by
  unfold extractTypeName
  have h1 := skipWsIdx_ge ts start
  split
  · split
    · have h2 := extractTypeMulti_snd_ge ts (skipWsIdx ts start + 1)
        [ts.get ⟨skipWsIdx ts start, by assumption⟩]
      have h3 := typeNameEnd_ge ts
        (extractTypeMulti ts (skipWsIdx ts start + 1)
          [ts.get ⟨skipWsIdx ts start, by assumption⟩]).2
      simp only
      omega
    · simp only
      omega
  · exact Nat.sub_le start 1

/-- Mirrors the Go `assembleTypeName` (`strings.Join(parts, " ")`). -/
def assembleTypeName (tokens : List Token) : List Char :=
  List.intercalate [' '] (tokens.map Token.value)

/-- Mirrors the Go `mapCastType`. -/
def mapCastType (pgType : List Char) : List Char :=
  let upper := pgType.map Char.toUpper
  if ["INTEGER", "INT", "INT4", "SMALLINT", "INT2", "BIGINT",
      "INT8"].map String.toList |>.contains upper then "INTEGER".toList
  else if ["REAL", "FLOAT4", "FLOAT8", "DOUBLE PRECISION", "NUMERIC",
      "DECIMAL"].map String.toList |>.contains upper then "REAL".toList
  else if ["TEXT", "VARCHAR", "CHARACTER VARYING", "CHAR", "CHARACTER", "UUID",
      "JSON", "JSONB", "TIMESTAMP", "TIMESTAMP WITH TIME ZONE",
      "TIMESTAMP WITHOUT TIME ZONE", "TIMESTAMPTZ", "DATE", "TIME",
      "TIME WITH TIME ZONE", "TIMETZ",
      "INTERVAL"].map String.toList |>.contains upper then "TEXT".toList
  else if ["BOOLEAN", "BOOL"].map String.toList |>.contains upper then
    "INTEGER".toList
  else if upper = "BYTEA".toList then "BLOB".toList
  else upper

/-- Loop body of the Go `translateCast`. -/
def translateCastAux (ts : List Token) (i : Nat) (out : List Token) : List Token :=
  if h : i < ts.length then
    let t := ts[i]
    if t.kind = .operator ∧ t.value = "::".toList then
      let exprTokens := extractLeftExpr out
      let r := extractTypeName ts (i + 1)
      let mapped := mapCastType (assembleTypeName r.1)
      translateCastAux ts (r.2 + 1)
        (out.take (out.length - exprTokens.length) ++
          [mkTok .keyword "CAST", mkTok .paren "("] ++ exprTokens ++
          [mkTok .whitespace " ", mkTok .keyword "AS", mkTok .whitespace " ",
           (⟨.ident, mapped, mapped⟩ : Token), mkTok .paren ")"])
    else translateCastAux ts (i + 1) (out ++ [t])
  else out
termination_by ts.length - i
decreasing_by
  all_goals first
    | omega
    | (have h1 := extractTypeName_snd_ge ts (i + 1); omega)

/-- Mirrors the Go `translateCast`. -/
def translateCast (tokens : List Token) : List Token :=
  translateCastAux tokens 0 []

/-- Per-token action of the Go `translateILIKE` loop. -/
def ilikeToken (t : Token) : Token :=
  if t.kind = .keyword ∧ t.value = "ILIKE".toList then mkTok .keyword "LIKE" else t

/-- Mirrors the Go `translateILIKE` (copies the vector, rewriting in place). -/
def translateILIKE (tokens : List Token) : List Token :=
  tokens.map ilikeToken

/-- Per-token action of the Go `translateBooleans` loop. -/
def booleanToken (t : Token) : Token :=
  if t.kind = .keyword ∧ t.value = "TRUE".toList then mkTok .number "1"
  else if t.kind = .keyword ∧ t.value = "FALSE".toList then mkTok .number "0"
  else t

/-- Mirrors the Go `translateBooleans`. -/
def translateBooleans (tokens : List Token) : List Token :=
  tokens.map booleanToken

/-- Mirrors the Go `resolveEscapes`: processes PostgreSQL backslash escape
sequences, resolving `\n \t \r \\ \'` and passing any other `\X` through as
the two characters. -/
def resolveEscapes : List Char → List Char
  | [] => []
  | '\\' :: c :: r =>
    if c = 'n' then '\n' :: resolveEscapes r
    else if c = 't' then '\t' :: resolveEscapes r
    else if c = 'r' then '\r' :: resolveEscapes r
    else if c = '\\' then '\\' :: resolveEscapes r
    else if c = '\'' then '\'' :: resolveEscapes r
    else '\\' :: c :: resolveEscapes r
  | c :: r => c :: resolveEscapes r

/-- Raw text begins with `E'` or `e'` (Go `strings.HasPrefix`). -/
def isEStringRaw : List Char → Bool
  | 'E' :: '\'' :: _ => true
  | 'e' :: '\'' :: _ => true
  | _ => false

/-- Per-token action of the Go `translateEscapeStrings` loop: strip `E'`/`e'`
and the closing quote, resolve escapes, requote doubling interior quotes. -/
def escapeStringToken (t : Token) : Token :=
  if t.kind = .string ∧ isEStringRaw t.raw then
    let content := (t.raw.drop 2).dropLast
    let newRaw := '\'' :: (doubleQuotes (resolveEscapes content) ++ ['\''])
    ⟨.string, newRaw, newRaw⟩
  else t

/-- Mirrors the Go `translateEscapeStrings`. -/
def translateEscapeStrings (tokens : List Token) : List Token :=
  tokens.map escapeStringToken

/-- Loop body of the Go `translateIsTrueFalse`. -/
def translateIsTrueFalseAux (ts : List Token) (i : Nat) (out : List Token) : List Token :=
  if h : i < ts.length then
    let t := ts[i]
    if t.kind = .keyword ∧ t.value = "IS".toList then
      let j := skipWsIdx ts (i + 1)
      if isKwAt ts j "NOT" then
        let k := skipWsIdx ts (j + 1)
        if isKwAt ts k "TRUE" then
          translateIsTrueFalseAux ts (k + 1) (out ++
            [mkTok .operator "!=", mkTok .whitespace " ", mkTok .number "1"])
        else if isKwAt ts k "FALSE" then
          translateIsTrueFalseAux ts (k + 1) (out ++
            [mkTok .operator "!=", mkTok .whitespace " ", mkTok .number "0"])
        else
          translateIsTrueFalseAux ts (i + 1) (out ++ [t])
      else if isKwAt ts j "TRUE" then
        translateIsTrueFalseAux ts (j + 1) (out ++
          [mkTok .operator "=", mkTok .whitespace " ", mkTok .number "1"])
      else if isKwAt ts j "FALSE" then
        translateIsTrueFalseAux ts (j + 1) (out ++
          [mkTok .operator "=", mkTok .whitespace " ", mkTok .number "0"])
      else
        translateIsTrueFalseAux ts (i + 1) (out ++ [t])
    else translateIsTrueFalseAux ts (i + 1) (out ++ [t])
  else out
termination_by ts.length - i
decreasing_by
  all_goals first
    | omega
    | (have h1 := skipWsIdx_ge ts (i + 1); omega)
    | (have h1 := skipWsIdx_ge ts (i + 1);
       have h2 := skipWsIdx_ge ts (skipWsIdx ts (i + 1) + 1); omega)

/-- Mirrors the Go `translateIsTrueFalse`. -/
def translateIsTrueFalse (tokens : List Token) : List Token :=
  translateIsTrueFalseAux tokens 0 []

/-- Mirrors the Go `translateExpressions` (pass order: cast, ILIKE, escape
strings, IS TRUE/FALSE, booleans). -/
def translateExpressions (tokens : List Token) : List Token :=
  translateBooleans (translateIsTrueFalse (translateEscapeStrings
    (translateILIKE (translateCast tokens))))

/-- Loop body of the Go `translateNow`. -/
def translateNowAux (ts : List Token) (i : Nat) (out : List Token) : List Token :=
  if h : i < ts.length then
    let t := ts[i]
    if t.kind = .keyword ∧ t.value = "NOW".toList then
      let j := skipWsIdx ts (i + 1)
      if isParenAt ts j "(" then
        let k := skipWsIdx ts (j + 1)
        if isParenAt ts k ")" then
          translateNowAux ts (k + 1) (out ++ [mkTok .ident "datetime",
            mkTok .paren "(", mkTok .string "'now'", mkTok .paren ")"])
        else translateNowAux ts (i + 1) (out ++ [t])
      else translateNowAux ts (i + 1) (out ++ [t])
    else translateNowAux ts (i + 1) (out ++ [t])
  else out
termination_by ts.length - i
decreasing_by
  all_goals first
    | omega
    | (have h1 := skipWsIdx_ge ts (i + 1);
       have h2 := skipWsIdx_ge ts (skipWsIdx ts (i + 1) + 1); omega)

/-- Mirrors the Go `translateNow`. -/
def translateNow (tokens : List Token) : List Token :=
  translateNowAux tokens 0 []

/-- Loop body of the Go `translateCurrentDatetime`. -/
def translateCurrentDatetimeAux (ts : List Token) (i : Nat) (out : List Token) :
    List Token :=
  if h : i < ts.length then
    let t := ts[i]
    if t.kind = .keyword ∧ t.value = "CURRENT_DATE".toList then
      translateCurrentDatetimeAux ts (i + 1) (out ++ [mkTok .ident "date",
        mkTok .paren "(", mkTok .string "'now'", mkTok .paren ")"])
    else if t.kind = .keyword ∧ t.value = "CURRENT_TIME".toList then
      translateCurrentDatetimeAux ts (i + 1) (out ++ [mkTok .ident "time",
        mkTok .paren "(", mkTok .string "'now'", mkTok .paren ")"])
    else if t.kind = .keyword ∧ t.value = "CURRENT_TIMESTAMP".toList then
      translateCurrentDatetimeAux ts (i + 1) (out ++ [mkTok .ident "datetime",
        mkTok .paren "(", mkTok .string "'now'", mkTok .paren ")"])
    else translateCurrentDatetimeAux ts (i + 1) (out ++ [t])
  else out
termination_by ts.length - i

/-- Mirrors the Go `translateCurrentDatetime`. -/
def translateCurrentDatetime (tokens : List Token) : List Token :=
  translateCurrentDatetimeAux tokens 0 []

/-- Mirrors the Go `trimTokenWhitespace`. -/
def trimTokenWhitespace (tokens : List Token) : List Token :=
  ((tokens.dropWhile (fun t => t.kind == .whitespace)).reverse.dropWhile
    (fun t => t.kind == .whitespace)).reverse

/-- Loop body of the Go `parseFuncArgs`.  (`depth` is never decremented below
zero on the paths reachable from the callers, which always start at an open
paren; Go uses an `int`.) -/
def parseFuncArgsAux (ts : List Token) (i : Nat) (depth : Nat)
    (current : List Token) (args : List (List Token)) :
    List (List Token) × Nat :=
  if h : i < ts.length then
    if ts[i].kind = .paren ∧ ts[i].value = "(".toList then
      if depth + 1 = 1 then parseFuncArgsAux ts (i + 1) (depth + 1) current args
      else parseFuncArgsAux ts (i + 1) (depth + 1) (current ++ [ts[i]]) args
    else if ts[i].kind = .paren ∧ ts[i].value = ")".toList then
      if depth - 1 = 0 then
        (if (trimTokenWhitespace current).length > 0 then
          args ++ [trimTokenWhitespace current] else args, i)
      else parseFuncArgsAux ts (i + 1) (depth - 1) (current ++ [ts[i]]) args
    else if ts[i].kind = .comma ∧ depth = 1 then
      parseFuncArgsAux ts (i + 1) depth [] (args ++ [trimTokenWhitespace current])
    else parseFuncArgsAux ts (i + 1) depth (current ++ [ts[i]]) args
  else (args, i - 1)
termination_by ts.length - i

theorem parseFuncArgsAux_snd_ge (ts : List Token) (i : Nat) (depth : Nat)
    (current : List Token) (args : List (List Token)) :
    i - 1 ≤ (parseFuncArgsAux ts i depth current args).2 := by
  rw [parseFuncArgsAux]
  split
  · rename_i hlt
    split
    · split
      · have := parseFuncArgsAux_snd_ge ts (i + 1) (depth + 1) current args
        omega
      · have := parseFuncArgsAux_snd_ge ts (i + 1) (depth + 1) (current ++ [ts[i]]) args
        omega
    · split
      · split
        · split
          all_goals simp only; omega
        · have := parseFuncArgsAux_snd_ge ts (i + 1) (depth - 1) (current ++ [ts[i]]) args
          omega
      · split
        · have := parseFuncArgsAux_snd_ge ts (i + 1) depth []
            (args ++ [trimTokenWhitespace current])
          omega
        · have := parseFuncArgsAux_snd_ge ts (i + 1) depth (current ++ [ts[i]]) args
          omega
  · simp only
    omega
termination_by ts.length - i

/-- Mirrors the Go `parseFuncArgs`: parses function arguments from an open
paren, returning one token slice per argument and the index of the closing
paren. -/
def parseFuncArgs (ts : List Token) (openParen : Nat) : List (List Token) × Nat :=
  parseFuncArgsAux ts openParen 0 [] []

theorem parseFuncArgs_snd_ge (ts : List Token) (openParen : Nat) :
    openParen - 1 ≤ (parseFuncArgs ts openParen).2 :=
  parseFuncArgsAux_snd_ge ts openParen 0 [] []

/-- Mirrors the Go `extractStringLiteral`. -/
def extractStringLiteral (tokens : List Token) : List Char :=
  match tokens.find? (fun t => t.kind == .string) with
  | some t => t.value
  | none => []

/-- Go `strings.Trim(s, "'")`: removes leading and trailing runs of `'`. -/
def trimQuotes (s : List Char) : List Char :=
  ((s.dropWhile (· = '\'')).reverse.dropWhile (· = '\'')).reverse

/-- Mirrors the Go `strftimeCall`: builds `strftime(fmt, expr)`. -/
def strftimeCall (format : List Char) (expr : List Token) : List Token :=
  [mkTok .ident "strftime", mkTok .paren "(",
   (⟨.string, format, format⟩ : Token), mkTok .comma ",",
   mkTok .whitespace " "] ++ expr ++ [mkTok .paren ")"]

/-- Mirrors the Go `dateTruncReplacement`. -/
def dateTruncReplacement (field : List Char) (expr : List Token) :
    Option (List Token) :=
  let f := (trimQuotes field).map Char.toLower
  if f = "day".toList then
    some ([mkTok .ident "date", mkTok .paren "("] ++ expr ++ [mkTok .paren ")"])
  else if f = "hour".toList then
    some (strftimeCall "'%Y-%m-%d %H:00:00'".toList expr)
  else if f = "minute".toList then
    some (strftimeCall "'%Y-%m-%d %H:%M:00'".toList expr)
  else if f = "month".toList then
    some (strftimeCall "'%Y-%m-01'".toList expr)
  else if f = "year".toList then
    some (strftimeCall "'%Y-01-01'".toList expr)
  else if f = "second".toList then
    some (strftimeCall "'%Y-%m-%d %H:%M:%S'".toList expr)
  else none

/-- Loop body of the Go `translateDateTrunc`. -/
def translateDateTruncAux (ts : List Token) (i : Nat) (out : List Token) : List Token :=
  if h : i < ts.length then
    let t := ts[i]
    if t.kind = .ident ∧ t.value.map Char.toLower = "date_trunc".toList then
      let j := skipWsIdx ts (i + 1)
      if isParenAt ts j "(" then
        let pa := parseFuncArgs ts j
        match pa.1 with
        | [a0, a1] =>
          match dateTruncReplacement (extractStringLiteral a0) a1 with
          | some replacement => translateDateTruncAux ts (pa.2 + 1) (out ++ replacement)
          | none => translateDateTruncAux ts (i + 1) (out ++ [t])
        | _ => translateDateTruncAux ts (i + 1) (out ++ [t])
      else translateDateTruncAux ts (i + 1) (out ++ [t])
    else translateDateTruncAux ts (i + 1) (out ++ [t])
  else out
termination_by ts.length - i
decreasing_by
  all_goals first
    | omega
    | (have h1 := skipWsIdx_ge ts (i + 1);
       have h2 := parseFuncArgs_snd_ge ts (skipWsIdx ts (i + 1)); omega)

/-- Mirrors the Go `translateDateTrunc`. -/
def translateDateTrunc (tokens : List Token) : List Token :=
  translateDateTruncAux tokens 0 []

/-- Mirrors the Go `extractFieldFormat`. -/
def extractFieldFormat (field : List Char) : List Char :=
  if field = "year".toList then "%Y".toList
  else if field = "month".toList then "%m".toList
  else if field = "day".toList then "%d".toList
  else if field = "hour".toList then "%H".toList
  else if field = "minute".toList then "%M".toList
  else if field = "second".toList then "%S".toList
  else if field = "dow".toList ∨ field = "dayofweek".toList then "%w".toList
  else if field = "doy".toList ∨ field = "dayofyear".toList then "%j".toList
  else []

/-- Depth-tracking forward scan of the Go `translateExtract` (stops at the
closing paren of the `EXTRACT(...)` call). -/
def extractDepthScan (ts : List Token) (m : Nat) (depth : Nat) : Nat :=
  if h : m < ts.length ∧ 0 < depth then
    if isParenAt ts m "(" then extractDepthScan ts (m + 1) (depth + 1)
    else if isParenAt ts m ")" then
      if depth - 1 = 0 then m
      else extractDepthScan ts (m + 1) (depth - 1)
    else extractDepthScan ts (m + 1) depth
  else m
termination_by ts.length - m

theorem extractDepthScan_ge (ts : List Token) (m : Nat) (depth : Nat) :
    m ≤ extractDepthScan ts m depth := by
  rw [extractDepthScan]
  split
  · split
    · have := extractDepthScan_ge ts (m + 1) (depth + 1)
      omega
    · split
      · split
        · exact Nat.le_refl m
        · have := extractDepthScan_ge ts (m + 1) (depth - 1)
          omega
      · have := extractDepthScan_ge ts (m + 1) depth
        omega
  · exact Nat.le_refl m
termination_by ts.length - m

/-- `CAST(strftime(fmt, expr) AS INTEGER)` emission shared by the Go
`translateExtract` and the `date_part` branch of `translateAggFuncs`. -/
def castStrftimeTokens (fmt : List Char) (expr : List Token) : List Token :=
  [mkTok .keyword "CAST", mkTok .paren "("] ++
    strftimeCall ('\'' :: (fmt ++ ['\''])) expr ++
    [mkTok .whitespace " ", mkTok .keyword "AS", mkTok .whitespace " ",
     mkTok .keyword "INTEGER", mkTok .paren ")"]

/-- Loop body of the Go `translateExtract`. -/
def translateExtractAux (ts : List Token) (i : Nat) (out : List Token) : List Token :=
  if h : i < ts.length then
    let t := ts[i]
    if t.kind = .keyword ∧ t.value = "EXTRACT".toList then
      let j := skipWsIdx ts (i + 1)
      if isParenAt ts j "(" then
        let k := skipWsIdx ts (j + 1)
        if hk : k < ts.length then
          if (ts.get ⟨k, hk⟩).kind = .keyword ∨ (ts.get ⟨k, hk⟩).kind = .ident then
            let field := (ts.get ⟨k, hk⟩).value.map Char.toLower
            let l := skipWsIdx ts (k + 1)
            if isKwAt ts l "FROM" then
              let m0 := skipWsIdx ts (l + 1)
              let m := extractDepthScan ts m0 1
              let exprTokens :=
                ((ts.drop m0).take (m - m0)).reverse.dropWhile
                  (fun tk => tk.kind == .whitespace) |>.reverse
              let fmt := extractFieldFormat field
              if fmt ≠ [] then
                translateExtractAux ts (m + 1) (out ++ castStrftimeTokens fmt exprTokens)
              else translateExtractAux ts (i + 1) (out ++ [t])
            else translateExtractAux ts (i + 1) (out ++ [t])
          else translateExtractAux ts (i + 1) (out ++ [t])
        else translateExtractAux ts (i + 1) (out ++ [t])
      else translateExtractAux ts (i + 1) (out ++ [t])
    else translateExtractAux ts (i + 1) (out ++ [t])
  else out
termination_by ts.length - i
decreasing_by
  all_goals first
    | omega
    | (have h1 := skipWsIdx_ge ts (i + 1);
       have h2 := skipWsIdx_ge ts (skipWsIdx ts (i + 1) + 1);
       have h3 := skipWsIdx_ge ts (skipWsIdx ts (skipWsIdx ts (i + 1) + 1) + 1);
       have h4 := skipWsIdx_ge ts
         (skipWsIdx ts (skipWsIdx ts (skipWsIdx ts (i + 1) + 1) + 1) + 1);
       have h5 := extractDepthScan_ge ts
         (skipWsIdx ts (skipWsIdx ts (skipWsIdx ts (skipWsIdx ts (i + 1) + 1) + 1) + 1)) 1;
       omega)

/-- Mirrors the Go `translateExtract`. -/
def translateExtract (tokens : List Token) : List Token :=
  translateExtractAux tokens 0 []

/-- Loop body of the Go `translateLeftRight`. -/
def translateLeftRightAux (ts : List Token) (i : Nat) (out : List Token) : List Token :=
  if h : i < ts.length then
    if (ts[i].kind = .ident ∨ ts[i].kind = .keyword) ∧
        (ts[i].value.map Char.toLower = "left".toList ∨
         ts[i].value.map Char.toLower = "right".toList) then
      let j := skipWsIdx ts (i + 1)
      if isParenAt ts j "(" then
        let pa := parseFuncArgs ts j
        match pa.1 with
        | [a0, a1] =>
          if ts[i].value.map Char.toLower = "left".toList then
            translateLeftRightAux ts (pa.2 + 1) (out ++
              [mkTok .ident "substr", mkTok .paren "("] ++ a0 ++
              [mkTok .comma ",", mkTok .whitespace " ", mkTok .number "1",
               mkTok .comma ",", mkTok .whitespace " "] ++ a1 ++ [mkTok .paren ")"])
          else
            translateLeftRightAux ts (pa.2 + 1) (out ++
              [mkTok .ident "substr", mkTok .paren "("] ++ a0 ++
              [mkTok .comma ",", mkTok .whitespace " ", mkTok .operator "-"] ++ a1 ++
              [mkTok .paren ")"])
        | _ => translateLeftRightAux ts (i + 1) (out ++ [ts[i]])
      else translateLeftRightAux ts (i + 1) (out ++ [ts[i]])
    else translateLeftRightAux ts (i + 1) (out ++ [ts[i]])
  else out
termination_by ts.length - i
decreasing_by
  all_goals first
    | omega
    | (have h1 := skipWsIdx_ge ts (i + 1);
       have h2 := parseFuncArgs_snd_ge ts (skipWsIdx ts (i + 1)); omega)

/-- Mirrors the Go `translateLeftRight`. -/
def translateLeftRight (tokens : List Token) : List Token :=
  translateLeftRightAux tokens 0 []

/-- One `COALESCE(arg,'')` group of the Go `translateConcat` emission loop. -/
def coalescePiece (arg : List Token) : List Token :=
  [mkTok .keyword "COALESCE", mkTok .paren "("] ++ arg ++
    [mkTok .comma ",", mkTok .string "''", mkTok .paren ")"]

/-- The Go `translateConcat` emission loop over the argument list (a `||`
separator before every argument except the first). -/
def concatJoin : List (List Token) → List Token
  | [] => []
  | a :: rest =>
    coalescePiece a ++ rest.flatMap (fun b =>
      [mkTok .whitespace " ", mkTok .operator "||", mkTok .whitespace " "] ++
        coalescePiece b)

/-- Loop body of the Go `translateConcat`. -/
def translateConcatAux (ts : List Token) (i : Nat) (out : List Token) : List Token :=
  if h : i < ts.length then
    if ts[i].kind = .ident ∧ ts[i].value.map Char.toLower = "concat".toList then
      let j := skipWsIdx ts (i + 1)
      if isParenAt ts j "(" then
        let pa := parseFuncArgs ts j
        if pa.1.length > 0 then
          translateConcatAux ts (pa.2 + 1) (out ++ [mkTok .paren "("] ++
            concatJoin pa.1 ++ [mkTok .paren ")"])
        else translateConcatAux ts (i + 1) (out ++ [ts[i]])
      else translateConcatAux ts (i + 1) (out ++ [ts[i]])
    else translateConcatAux ts (i + 1) (out ++ [ts[i]])
  else out
termination_by ts.length - i
decreasing_by
  all_goals first
    | omega
    | (have h1 := skipWsIdx_ge ts (i + 1);
       have h2 := parseFuncArgs_snd_ge ts (skipWsIdx ts (i + 1)); omega)

/-- Mirrors the Go `translateConcat`. -/
def translateConcat (tokens : List Token) : List Token :=
  translateConcatAux tokens 0 []

/-- Mirrors the Go `translateStringFuncs`. -/
def translateStringFuncs (tokens : List Token) : List Token :=
  translateConcat (translateLeftRight tokens)

/-- The `runtimePatterns` list of the Go `mapPGDateFormat`. -/
def runtimePatterns : List (List Char) :=
  [ "Mon", "Month", "mon", "month", "MON", "MONTH",
    "Day", "Dy", "day", "dy", "DAY", "DY",
    "AM", "PM", "am", "pm", "A.M.", "P.M.",
    "TZ", "tz", "OF",
    "Q",
    "TM" ].map String.toList

/-- The `strings.NewReplacer` of the Go `mapPGDateFormat`: at each position
the first matching pattern (in argument order) is replaced, without
overlapping matches. -/
def pgReplacer (s : List Char) : List Char :=
  match s with
  | [] => []
  | c :: r =>
    if "YYYY".toList.isPrefixOf (c :: r) then
      "%Y".toList ++ pgReplacer ((c :: r).drop 4)
    else if "YY".toList.isPrefixOf (c :: r) then
      "%y".toList ++ pgReplacer ((c :: r).drop 2)
    else if "MM".toList.isPrefixOf (c :: r) then
      "%m".toList ++ pgReplacer ((c :: r).drop 2)
    else if "DD".toList.isPrefixOf (c :: r) then
      "%d".toList ++ pgReplacer ((c :: r).drop 2)
    else if "HH24".toList.isPrefixOf (c :: r) then
      "%H".toList ++ pgReplacer ((c :: r).drop 4)
    else if "HH12".toList.isPrefixOf (c :: r) then
      "%I".toList ++ pgReplacer ((c :: r).drop 4)
    else if "HH".toList.isPrefixOf (c :: r) then
      "%H".toList ++ pgReplacer ((c :: r).drop 2)
    else if "MI".toList.isPrefixOf (c :: r) then
      "%M".toList ++ pgReplacer ((c :: r).drop 2)
    else if "SS".toList.isPrefixOf (c :: r) then
      "%S".toList ++ pgReplacer ((c :: r).drop 2)
    else c :: pgReplacer r
termination_by s.length
decreasing_by
  all_goals simp only [List.length_drop, List.length_cons]
  all_goals omega

/-- Go `strings.Contains(s, pat)`. -/
def containsSub (s pat : List Char) : Bool :=
  if pat.isPrefixOf s then true
  else
    match s with
    | [] => false
    | _ :: r => containsSub r pat

/-- Mirrors the Go `mapPGDateFormat`. -/
def mapPGDateFormat (pgFmt : List Char) : List Char × Bool :=
  if runtimePatterns.any (fun p => containsSub (trimQuotes pgFmt) p) then ([], false)
  else (pgReplacer (trimQuotes pgFmt), true)

/-- Loop body of the Go `translateAggFuncs`. -/
def translateAggFuncsAux (ts : List Token) (i : Nat) (out : List Token) : List Token :=
  if h : i < ts.length then
    if ts[i].kind = .ident ∧ ts[i].value.map Char.toLower = "string_agg".toList then
      translateAggFuncsAux ts (i + 1) (out ++ [mkTok .ident "group_concat"])
    else if ts[i].kind = .ident ∧ ts[i].value.map Char.toLower = "array_agg".toList then
      translateAggFuncsAux ts (i + 1) (out ++ [mkTok .ident "json_group_array"])
    else if ts[i].kind = .ident ∧ ts[i].value.map Char.toLower = "date_part".toList then
      let j := skipWsIdx ts (i + 1)
      if isParenAt ts j "(" then
        let pa := parseFuncArgs ts j
        match pa.1 with
        | [a0, a1] =>
          if extractFieldFormat ((trimQuotes (extractStringLiteral a0)).map
              Char.toLower) ≠ [] then
            translateAggFuncsAux ts (pa.2 + 1) (out ++ castStrftimeTokens
              (extractFieldFormat ((trimQuotes (extractStringLiteral a0)).map
                Char.toLower)) a1)
          else translateAggFuncsAux ts (i + 1) (out ++ [ts[i]])
        | _ => translateAggFuncsAux ts (i + 1) (out ++ [ts[i]])
      else translateAggFuncsAux ts (i + 1) (out ++ [ts[i]])
    else if ts[i].kind = .ident ∧ ts[i].value.map Char.toLower = "to_char".toList then
      let j := skipWsIdx ts (i + 1)
      if isParenAt ts j "(" then
        let pa := parseFuncArgs ts j
        match pa.1 with
        | [a0, a1] =>
          if (mapPGDateFormat (extractStringLiteral a1)).2 ∧
              (mapPGDateFormat (extractStringLiteral a1)).1 ≠ [] then
            translateAggFuncsAux ts (pa.2 + 1) (out ++
              [mkTok .ident "strftime", mkTok .paren "(",
               (⟨.string, '\'' :: ((mapPGDateFormat (extractStringLiteral a1)).1 ++ ['\'']),
                '\'' :: ((mapPGDateFormat (extractStringLiteral a1)).1 ++ ['\''])⟩ : Token),
               mkTok .comma ",", mkTok .whitespace " "] ++ a0 ++ [mkTok .paren ")"])
          else
            translateAggFuncsAux ts (pa.2 + 1) (out ++
              [mkTok .ident "pg_to_char", mkTok .paren "("] ++ a0 ++
              [mkTok .comma ",", mkTok .whitespace " "] ++ a1 ++ [mkTok .paren ")"])
        | _ => translateAggFuncsAux ts (i + 1) (out ++ [ts[i]])
      else translateAggFuncsAux ts (i + 1) (out ++ [ts[i]])
    else translateAggFuncsAux ts (i + 1) (out ++ [ts[i]])
  else out
termination_by ts.length - i
decreasing_by
  all_goals first
    | omega
    | (have h1 := skipWsIdx_ge ts (i + 1);
       have h2 := parseFuncArgs_snd_ge ts (skipWsIdx ts (i + 1)); omega)

/-- Mirrors the Go `translateAggFuncs`. -/
def translateAggFuncs (tokens : List Token) : List Token :=
  translateAggFuncsAux tokens 0 []

/-- Mirrors the Go `translateFunctions` (pass order: NOW, CURRENT_*,
date_trunc, EXTRACT, string functions, aggregate functions). -/
def translateFunctions (tokens : List Token) : List Token :=
  translateAggFuncs (translateStringFuncs (translateExtract (translateDateTrunc
    (translateCurrentDatetime (translateNow tokens)))))

/-- `tokens[j]` exists and is Whitespace. -/
def isWsAt (ts : List Token) (j : Nat) : Bool :=
  match ts[j]? with
  | some t => t.kind == .whitespace
  | none => false

/-- Backwards whitespace skip of the Go `translateNullsOrdering`
(`for pos > 0 && out[pos-1].Kind == TokWhitespace { pos-- }`). -/
def backWsSkip (out : List Token) (pos : Nat) : Nat :=
  if 0 < pos ∧ isWsAt out (pos - 1) then backWsSkip out (pos - 1) else pos
termination_by pos
decreasing_by omega

/-- The optional trailing `ASC`/`DESC` token check of `translateNullsOrdering`. -/
def dirTokenAt (out : List Token) (pos : Nat) : Option Token :=
  if 0 < pos then
    match out[pos - 1]? with
    | some t =>
      if t.kind = .keyword ∧ (t.value = "ASC".toList ∨ t.value = "DESC".toList) then
        some t
      else none
    | none => none
  else none

/-- Mirrors the Go `findColumnExprStart`: walks backwards from `pos` to find
the start of a column expression (simple identifier, `table.column`, or a
balanced-paren function call).  On unbalanced parens Go leaves a negative
index and the caller would panic when slicing; that path is modelled as
returning `pos` (so the caller gives up on the rewrite). -/
def findColumnExprStart (tokens : List Token) (pos : Nat) : Nat :=
  if pos = 0 then pos
  else
    match tokens[pos - 1]? with
    | none => pos
    | some last =>
      if last.kind = .paren ∧ last.value = ")".toList then
        match openBack tokens (pos - 2) 1 with
        | some p => if 0 < p ∧ isIdentOrKwAt tokens (p - 1) then p - 1 else p
        | none => pos
      else if last.kind = .ident ∨ last.kind = .keyword then
        if 2 ≤ pos - 1 ∧
            (match tokens[pos - 2]? with
             | some t => t.kind == .dot
             | none => false) = true ∧ isIdentOrKwAt tokens (pos - 3) then
          pos - 3
        else pos - 1
      else pos

/-- The `(CASE WHEN col IS NULL THEN x ELSE y END), col [dir]` emission of the
Go `translateNullsOrdering`. -/
def nullsCaseTokens (colTokens : List Token) (nullsFirst : Bool)
    (dir : Option Token) : List Token :=
  [mkTok .paren "(", mkTok .keyword "CASE", mkTok .whitespace " ",
   mkTok .keyword "WHEN", mkTok .whitespace " "] ++ colTokens ++
  [mkTok .whitespace " ", mkTok .keyword "IS", mkTok .whitespace " ",
   mkTok .keyword "NULL", mkTok .whitespace " ", mkTok .keyword "THEN",
   mkTok .whitespace " ", mkTok .number (if nullsFirst then "0" else "1"),
   mkTok .whitespace " ", mkTok .keyword "ELSE", mkTok .whitespace " ",
   mkTok .number (if nullsFirst then "1" else "0"), mkTok .whitespace " ",
   mkTok .keyword "END", mkTok .paren ")", mkTok .comma ",",
   mkTok .whitespace " "] ++ colTokens ++
  (match dir with
   | some d => [mkTok .whitespace " ", d]
   | none => [])

/-- Loop body of the Go `translateNullsOrdering`. -/
def translateNullsOrderingAux (ts : List Token) (i : Nat) (out : List Token) :
    List Token :=
  if h : i < ts.length then
    if ¬(ts[i].kind = .keyword ∧ ts[i].value = "NULLS".toList) then
      translateNullsOrderingAux ts (i + 1) (out ++ [ts[i]])
    else
      if ¬(isKwAt ts (skipWsIdx ts (i + 1)) "FIRST" ∨
           isKwAt ts (skipWsIdx ts (i + 1)) "LAST") then
        translateNullsOrderingAux ts (i + 1) (out ++ [ts[i]])
      else
        match hdir : dirTokenAt out (backWsSkip out out.length) with
        | some d =>
          if findColumnExprStart out (backWsSkip out (backWsSkip out out.length - 1)) =
              backWsSkip out (backWsSkip out out.length - 1) then
            translateNullsOrderingAux ts (i + 1) (out ++ [ts[i]])
          else
            translateNullsOrderingAux ts (skipWsIdx ts (i + 1) + 1)
              (out.take (findColumnExprStart out
                  (backWsSkip out (backWsSkip out out.length - 1))) ++
                nullsCaseTokens
                  ((out.drop (findColumnExprStart out
                      (backWsSkip out (backWsSkip out out.length - 1)))).take
                    (backWsSkip out (backWsSkip out out.length - 1) -
                      findColumnExprStart out
                        (backWsSkip out (backWsSkip out out.length - 1))))
                  (isKwAt ts (skipWsIdx ts (i + 1)) "FIRST") (some d))
        | none =>
          if findColumnExprStart out (backWsSkip out out.length) =
              backWsSkip out out.length then
            translateNullsOrderingAux ts (i + 1) (out ++ [ts[i]])
          else
            translateNullsOrderingAux ts (skipWsIdx ts (i + 1) + 1)
              (out.take (findColumnExprStart out (backWsSkip out out.length)) ++
                nullsCaseTokens
                  ((out.drop (findColumnExprStart out
                      (backWsSkip out out.length))).take
                    (backWsSkip out out.length -
                      findColumnExprStart out (backWsSkip out out.length)))
                  (isKwAt ts (skipWsIdx ts (i + 1)) "FIRST") none)
  else out
termination_by ts.length - i
decreasing_by
  all_goals first
    | omega
    | (have h1 := skipWsIdx_ge ts (i + 1); omega)

/-- Mirrors the Go `translateNullsOrdering`. -/
def translateNullsOrdering (tokens : List Token) : List Token :=
  translateNullsOrderingAux tokens 0 []

/-- Per-token action of the Go `translateParams` loop. -/
def paramToken (t : Token) : Token :=
  if t.kind = .param then mkTok .operator "?" else t

/-- Mirrors the Go `translateParams`: converts `$1, $2, …` to `?`
placeholders (copies the vector, rewriting Parameter tokens in place). -/
def translateParams (tokens : List Token) : List Token :=
  tokens.map paramToken

/-- Mirrors the Go `Translate`: tokenize, run the five passes in order, and
reassemble.  (The Go function also returns an `error`, which is always nil.) -/
def Translate (sql : List Char) : List Char :=
  Reassemble (translateParams (translateNullsOrdering (translateFunctions
    (translateExpressions (translateDDL (Tokenize sql))))))

theorem scanBlockComment_append : ∀ (u : List Char),
    (scanBlockComment u).1 ++ (scanBlockComment u).2 = u
  | [] => by simp [scanBlockComment]
  | [c] => by simp [scanBlockComment]
  | c :: c2 :: r => by
    have ih := scanBlockComment_append (c2 :: r)
    simp only [scanBlockComment]
    split
    · rename_i hcc
      simp [hcc.1, hcc.2]
    · simpa using ih

theorem scanEString_append : ∀ (u : List Char),
    (scanEString u).1 ++ (scanEString u).2 = u
  | [] => by simp [scanEString]
  | [c] => by simp [scanEString]
  | c :: c2 :: r => by
    have ih1 := scanEString_append r
    have ih2 := scanEString_append (c2 :: r)
    simp only [scanEString]
    split
    · rename_i hc
      simpa [hc] using ih1
    · split
      · rename_i hc
        simp [hc]
      · simpa using ih2

theorem scanSString_append : ∀ (u : List Char),
    (scanSString u).1 ++ (scanSString u).2 = u
  | [] => by simp [scanSString]
  | [c] => by simp [scanSString]
  | c :: c2 :: r => by
    have ih1 := scanSString_append r
    have ih2 := scanSString_append (c2 :: r)
    simp only [scanSString]
    split
    · rename_i hc
      simpa [hc.1, hc.2] using ih1
    · split
      · rename_i hc
        simp [hc]
      · simpa using ih2

theorem scanQIdent_append : ∀ (u : List Char),
    (scanQIdent u).1 ++ (scanQIdent u).2 = u
  | [] => by simp [scanQIdent]
  | c :: r => by
    have ih := scanQIdent_append r
    simp only [scanQIdent]
    split
    · rename_i hc
      simp [hc]
    · simpa using ih

theorem scanExp_append : ∀ (u : List Char), (scanExp u).1 ++ (scanExp u).2 = u
  | [] => by simp [scanExp]
  | c :: r => by
    simp only [scanExp]
    split
    · match r with
      | [] => simp
      | c2 :: r2 =>
        simp only
        split
        · simp [List.takeWhile_append_dropWhile]
        · simp [List.takeWhile_append_dropWhile]
    · simp

theorem Reassemble_cons (t : Token) (ts : List Token) :
    Reassemble (t :: ts) = t.raw ++ Reassemble ts := by
  simp [Reassemble]

theorem head?_eq_cons {α : Type} {l : List α} {a : α} (h : l.head? = some a) :
    l = a :: l.tail := by
  cases l <;> simp_all

set_option maxHeartbeats 2000000 in
/-- Raw reassembly of the tokenizer output reproduces the input, for every
suffix of an input in which no position starts a dollar-quoted string
(dollar-quote normalization is the only lexeme whose `raw` differs from the
consumed text). -/
theorem reassembleTokenizeAux (s : List Char)
    (H : ∀ u, u <:+ s → tryDollarQuote u = none) :
    ∀ (v : List Char), v <:+ s → Reassemble (Tokenize v) = v := by
  intro v hv
  match v with
  | [] => simp [Tokenize, Reassemble]
  | ch :: rest =>
    have hdqnone : tryDollarQuote (ch :: rest) = none := H _ hv
    have hrest : rest <:+ s := (List.suffix_cons ch rest).trans hv
    have htail : rest.tail <:+ s := (List.tail_suffix rest).trans hrest
    rw [Tokenize.eq_def]
    dsimp only
    by_cases h1 : ch.isWhitespace = true
    · rw [if_pos h1, Reassemble_cons,
        reassembleTokenizeAux s H _ ((List.dropWhile_suffix _).trans hrest)]
      simp [List.takeWhile_append_dropWhile]
    rw [if_neg h1]
    by_cases h2 : ch = '-' ∧ rest.head? = some '-'
    · rw [if_pos h2, Reassemble_cons,
        reassembleTokenizeAux s H _ ((List.dropWhile_suffix _).trans hrest)]
      simp [List.takeWhile_append_dropWhile]
    rw [if_neg h2]
    by_cases h3 : ch = '/' ∧ rest.head? = some '*'
    · rw [if_pos h3, Reassemble_cons, reassembleTokenizeAux s H _
        (List.IsSuffix.trans ⟨(scanBlockComment rest.tail).1,
          scanBlockComment_append rest.tail⟩ htail)]
      rw [h3.1, head?_eq_cons h3.2]
      simp [scanBlockComment_append]
    rw [if_neg h3]
    by_cases h4 : (ch = 'E' ∨ ch = 'e') ∧ rest.head? = some '\''
    · rw [if_pos h4, Reassemble_cons, reassembleTokenizeAux s H _
        (List.IsSuffix.trans ⟨(scanEString rest.tail).1,
          scanEString_append rest.tail⟩ htail)]
      rw [head?_eq_cons h4.2]
      simp [scanEString_append]
    rw [if_neg h4]
    by_cases h5 : ch = '\''
    · rw [if_pos h5, Reassemble_cons, reassembleTokenizeAux s H _
        (List.IsSuffix.trans ⟨(scanSString rest).1, scanSString_append rest⟩ hrest)]
      rw [h5]
      simp [scanSString_append]
    rw [if_neg h5]
    by_cases h6 : ch = '"'
    · rw [if_pos h6, Reassemble_cons, reassembleTokenizeAux s H _
        (List.IsSuffix.trans ⟨(scanQIdent rest).1, scanQIdent_append rest⟩ hrest)]
      rw [h6]
      simp [scanQIdent_append]
    rw [if_neg h6]
    by_cases h7 : ch = '$'
    · rw [if_pos h7, hdqnone, dif_neg (by simp)]
      by_cases h7b : (Option.map Char.isDigit rest.head?).getD false = true
      · rw [if_pos h7b, Reassemble_cons,
          reassembleTokenizeAux s H _ ((List.dropWhile_suffix _).trans hrest)]
        rw [h7]
        simp [List.takeWhile_append_dropWhile]
      · rw [if_neg h7b, Reassemble_cons, reassembleTokenizeAux s H _ hrest]
        rw [h7]
        simp +decide [mkTok]
    rw [if_neg h7]
    by_cases h8 : ch.isDigit = true ∨ ch = '.' ∧
        (Option.map Char.isDigit rest.head?).getD false = true
    · rw [if_pos h8, Reassemble_cons, reassembleTokenizeAux s H _
        (List.IsSuffix.trans ⟨(scanExp (rest.dropWhile isNumChar)).1,
            scanExp_append (rest.dropWhile isNumChar)⟩
          ((List.dropWhile_suffix _).trans hrest))]
      simp only [List.cons_append, List.append_assoc, scanExp_append,
        List.takeWhile_append_dropWhile]
    rw [if_neg h8]
    by_cases h9 : ch = ':' ∧ rest.head? = some ':'
    · rw [if_pos h9, Reassemble_cons, reassembleTokenizeAux s H _ htail]
      rw [h9.1, head?_eq_cons h9.2]
      simp +decide [mkTok]
    rw [if_neg h9]
    by_cases h10 : ch = '!' ∧ rest.head? = some '~'
    · rw [if_pos h10]
      by_cases h10b : rest.tail.head? = some '*'
      · rw [if_pos h10b, Reassemble_cons, reassembleTokenizeAux s H _
          ((List.tail_suffix rest.tail).trans htail)]
        rw [h10.1, head?_eq_cons h10.2, head?_eq_cons h10b]
        simp +decide [mkTok]
      · rw [if_neg h10b, Reassemble_cons, reassembleTokenizeAux s H _ htail]
        rw [h10.1, head?_eq_cons h10.2]
        simp +decide [mkTok]
    rw [if_neg h10]
    by_cases h11 : ch = '~' ∧ rest.head? = some '*'
    · rw [if_pos h11, Reassemble_cons, reassembleTokenizeAux s H _ htail]
      rw [h11.1, head?_eq_cons h11.2]
      simp +decide [mkTok]
    rw [if_neg h11]
    by_cases h12 : ch = '<' ∨ ch = '>' ∨ ch = '!' ∨ ch = '='
    · rw [if_pos h12]
      match rest, hrest, htail with
      | [], _, _ => simp [Reassemble]
      | c2 :: r2, hrest2, htail2 =>
        dsimp only
        by_cases hc2 : c2 = '=' ∨ c2 = '>'
        · rw [if_pos hc2, Reassemble_cons, reassembleTokenizeAux s H r2 htail2]
          simp
        · rw [if_neg hc2, Reassemble_cons, reassembleTokenizeAux s H _ hrest2]
          simp
    rw [if_neg h12]
    by_cases h13 : ch = '-' ∧ rest.head? = some '>'
    · rw [if_pos h13]
      by_cases h13b : rest.tail.head? = some '>'
      · rw [if_pos h13b, Reassemble_cons, reassembleTokenizeAux s H _
          ((List.tail_suffix rest.tail).trans htail)]
        rw [h13.1, head?_eq_cons h13.2, head?_eq_cons h13b]
        simp +decide [mkTok]
      · rw [if_neg h13b, Reassemble_cons, reassembleTokenizeAux s H _ htail]
        rw [h13.1, head?_eq_cons h13.2]
        simp +decide [mkTok]
    rw [if_neg h13]
    by_cases h14 : ch = '|' ∧ rest.head? = some '|'
    · rw [if_pos h14, Reassemble_cons, reassembleTokenizeAux s H _ htail]
      rw [h14.1, head?_eq_cons h14.2]
      simp +decide [mkTok]
    rw [if_neg h14]
    by_cases h15 : ch = '+' ∨ ch = '-' ∨ ch = '*' ∨ ch = '/' ∨ ch = '%' ∨
        ch = '|' ∨ ch = '&' ∨ ch = '~' ∨ ch = ':'
    · rw [if_pos h15, Reassemble_cons, reassembleTokenizeAux s H _ hrest]
      simp
    rw [if_neg h15]
    by_cases h16 : ch = '(' ∨ ch = ')'
    · rw [if_pos h16, Reassemble_cons, reassembleTokenizeAux s H _ hrest]
      simp
    rw [if_neg h16]
    by_cases h17 : ch = ','
    · rw [if_pos h17, Reassemble_cons, reassembleTokenizeAux s H _ hrest]
      rw [h17]
      simp +decide [mkTok]
    rw [if_neg h17]
    by_cases h18 : ch = ';'
    · rw [if_pos h18, Reassemble_cons, reassembleTokenizeAux s H _ hrest]
      rw [h18]
      simp +decide [mkTok]
    rw [if_neg h18]
    by_cases h19 : ch = '.'
    · rw [if_pos h19, Reassemble_cons, reassembleTokenizeAux s H _ hrest]
      rw [h19]
      simp +decide [mkTok]
    rw [if_neg h19]
    by_cases h20 : ch = '_' ∨ ch.isAlpha = true
    · rw [if_pos h20, Reassemble_cons,
        reassembleTokenizeAux s H _ ((List.dropWhile_suffix _).trans hrest)]
      split <;> simp [List.takeWhile_append_dropWhile]
    rw [if_neg h20]
    rw [Reassemble_cons, reassembleTokenizeAux s H _ hrest]
    simp
termination_by v => v.length
decreasing_by
  all_goals simp only [List.length_cons]
  all_goals first
    | omega
    | (apply Nat.lt_succ_of_le; apply dropWhile_length_le)
    | (refine lt_of_le_of_lt (scanBlockComment_len _) ?_; simp [List.length_tail]; omega)
    | (refine lt_of_le_of_lt (scanEString_len _) ?_; simp [List.length_tail]; omega)
    | (refine lt_of_le_of_lt (scanSString_len _) ?_; omega)
    | (refine lt_of_le_of_lt (scanQIdent_len _) ?_; omega)
    | (refine lt_of_le_of_lt (scanExp_len _) ?_;
       refine lt_of_le_of_lt (dropWhile_length_le _ _) ?_; omega)
    | (simp [List.length_tail]; omega)

/-- Shared corollary: raw reassembly is the identity on inputs in which no
position starts a dollar-quoted string. -/
theorem reassemble_tokenize (s : List Char)
    (h : ∀ p, p < s.length → tryDollarQuote (s.drop p) = none) :
    Reassemble (Tokenize s) = s := by
  apply reassembleTokenizeAux s ?_ s (List.suffix_refl s)
  intro u hu
  obtain ⟨t, ht⟩ := hu
  match u with
  | [] => rfl
  | c :: u' =>
    have hlen := congrArg List.length ht
    simp [List.length_append] at hlen
    have hp : t.length < s.length := by omega
    have hdrop : s.drop t.length = c :: u' := by
      rw [← ht, List.drop_left]
    rw [← hdrop]
    exact h t.length hp

theorem Tokenize_nil : Tokenize [] = [] := by
  rw [Tokenize.eq_def]

theorem tryDollarQuote_singleton (c : Char) : tryDollarQuote [c] = none := by
  unfold tryDollarQuote
  dsimp only
  split
  · rfl
  · rfl

set_option maxHeartbeats 1000000 in
/-- A one-character input always lexes to exactly one token, and its raw text
is that character. -/
theorem tokenize_singleton (c : Char) :
    (Tokenize [c]).length = 1 ∧ Reassemble (Tokenize [c]) = [c] := by
  rw [Tokenize.eq_def]
  dsimp only
  rw [tryDollarQuote_singleton]
  simp only [List.head?_nil, List.tail_nil, List.dropWhile_nil, List.takeWhile_nil,
    List.take_nil, List.drop_nil, Option.map_none', Option.getD_none,
    Option.isSome_none, Bool.false_eq_true, dite_false, reduceCtorEq,
    and_false, false_and, if_false, or_false, scanBlockComment, scanEString,
    scanSString, scanQIdent, scanExp, Tokenize_nil, List.append_nil,
    List.nil_append]
  by_cases h1 : c.isWhitespace = true
  · rw [if_pos h1]; exact ⟨rfl, rfl⟩
  rw [if_neg h1]
  by_cases h2 : c = '\''
  · rw [if_pos h2]; subst h2; exact ⟨rfl, rfl⟩
  rw [if_neg h2]
  by_cases h3 : c = '"'
  · rw [if_pos h3]; subst h3; exact ⟨rfl, rfl⟩
  rw [if_neg h3]
  by_cases h4 : c = '$'
  · rw [if_pos h4]; subst h4; exact ⟨rfl, by decide⟩
  rw [if_neg h4]
  by_cases h5 : c.isDigit = true
  · rw [if_pos h5]; exact ⟨rfl, rfl⟩
  rw [if_neg h5]
  by_cases h6 : c = '<' ∨ c = '>' ∨ c = '!' ∨ c = '='
  · rw [if_pos h6]; exact ⟨rfl, rfl⟩
  rw [if_neg h6]
  by_cases h7 : c = '+' ∨ c = '-' ∨ c = '*' ∨ c = '/' ∨ c = '%' ∨ c = '|' ∨ c = '&' ∨ c = '~' ∨ c = ':'
  · rw [if_pos h7]; exact ⟨rfl, rfl⟩
  rw [if_neg h7]
  by_cases h8 : c = '(' ∨ c = ')'
  · rw [if_pos h8]; exact ⟨rfl, rfl⟩
  rw [if_neg h8]
  by_cases h9 : c = ','
  · rw [if_pos h9]; subst h9; exact ⟨rfl, by decide⟩
  rw [if_neg h9]
  by_cases h10 : c = ';'
  · rw [if_pos h10]; subst h10; exact ⟨rfl, by decide⟩
  rw [if_neg h10]
  by_cases h11 : c = '.'
  · rw [if_pos h11]; subst h11; exact ⟨rfl, by decide⟩
  rw [if_neg h11]
  by_cases h12 : c = '_' ∨ c.isAlpha = true
  · rw [if_pos h12]
    by_cases hk : sqlKeywords.contains (List.map Char.toUpper [c]) = true
    · rw [if_pos hk]; exact ⟨rfl, rfl⟩
    · rw [if_neg hk]; exact ⟨rfl, rfl⟩
  rw [if_neg h12]
  exact ⟨rfl, rfl⟩

theorem scanBlockComment_unterminated :
    ∀ (u : List Char) (h1 : u ≠ []), ¬ (['*', '/'] <:+: u) →
      scanBlockComment u = (u.dropLast, [u.getLast h1])
  | [], h1, _ => absurd rfl h1
  | [c], _, _ => by simp [scanBlockComment]
  | c :: c2 :: r, _, h2 => by
    have hcc : ¬(c = '*' ∧ c2 = '/') := by
      rintro ⟨e1, e2⟩
      subst e1; subst e2
      exact h2 ⟨[], r, rfl⟩
    have hin : ¬ (['*', '/'] <:+: (c2 :: r)) := fun hi =>
      h2 (hi.trans (List.infix_cons (List.infix_refl _)))
    have ih := scanBlockComment_unterminated (c2 :: r) (by simp) hin
    rw [scanBlockComment, if_neg hcc, ih]
    simp [List.dropLast, List.getLast]
/-- C10: an unterminated block comment does not consume to end-of-input: on
`/*` followed by a nonempty tail with no closing `*/`, the tokenizer emits a
Comment token whose raw stops at the second-to-last character, and the final
character is lexed as exactly one further token of its own. -/
theorem C10_unterminated_block_comment (rest : List Char) (h1 : rest ≠ [])
    (h2 : ¬ (['*', '/'] <:+: rest)) :
    Tokenize ('/' :: '*' :: rest) =
      ⟨.comment, '/' :: '*' :: rest.dropLast, '/' :: '*' :: rest.dropLast⟩ ::
        Tokenize [rest.getLast h1] ∧
    (Tokenize [rest.getLast h1]).length = 1 ∧
    Reassemble (Tokenize [rest.getLast h1]) = [rest.getLast h1] := by
  refine ⟨?_, (tokenize_singleton _).1, (tokenize_singleton _).2⟩
  rw [Tokenize.eq_def]
  dsimp only
  rw [if_neg (by decide), if_neg (by simp), if_pos (by simp)]
  rw [List.tail_cons, scanBlockComment_unterminated rest h1 h2]

theorem C10_unterminated_block_comment_witness :
    Tokenize ('/' :: '*' :: ['a', 'b', 'c']) =
      ⟨.comment, ['/', '*', 'a', 'b'], ['/', '*', 'a', 'b']⟩ ::
        Tokenize ['c'] ∧
    (Tokenize ['c']).length = 1 ∧
    Reassemble (Tokenize ['c']) = ['c'] :=
  C10_unterminated_block_comment ['a', 'b', 'c'] (by decide) (by decide)
/-- C1: concatenating the raw field over the tokenizer output reproduces the
input character-for-character, provided no suffix of the input starts a
dollar-quoted string (the tokenizer normalizes dollar-quoted strings at lex
time, so raw preservation fails on them; see the counterexample). -/
theorem C1_raw_preservation (s : List Char)
    (h : ∀ p, p < s.length → tryDollarQuote (s.drop p) = none) :
    Reassemble (Tokenize s) = s :=
  reassemble_tokenize s h

theorem C1_raw_preservation_witness :
    (∀ p, p < ("SELECT * FROM t -- c".toList).length →
      tryDollarQuote (("SELECT * FROM t -- c".toList).drop p) = none) ∧
    Reassemble (Tokenize "SELECT * FROM t -- c".toList) = "SELECT * FROM t -- c".toList :=
  ⟨by decide, C1_raw_preservation "SELECT * FROM t -- c".toList (by decide)⟩

set_option maxHeartbeats 1000000 in
theorem C1_dollar_counterexample :
    Reassemble (Tokenize "SELECT $$x$$".toList) ≠ "SELECT $$x$$".toList := by
  simp +decide [mkTok, sqlKeywords, isIdentChar, isNumChar, scanBlockComment, scanEString, scanSString, scanQIdent, scanExp, findTagIdx, dollarTag, dollarQuoteWith, tryDollarQuote, doubleQuotes, Tokenize, Reassemble, skipWsIdx, isKwAt, isParenAt, peekKeyword, parenScan, skipParenGroup, pgTypeToSQLite, lookupPgType, MapType, translateTypesAux, translateTypes, translateSerialAux, translateSerial, translateDefaultNowAux, translateDefaultNow, translateDDL, openBack, isIdentOrKwAt, extractLeftExpr, extractTypeMulti, typeNameEnd, extractTypeName, assembleTypeName, mapCastType, translateCastAux, translateCast, ilikeToken, translateILIKE, booleanToken, translateBooleans, resolveEscapes, isEStringRaw, escapeStringToken, translateEscapeStrings, translateIsTrueFalseAux, translateIsTrueFalse, translateExpressions, translateNowAux, translateNow, translateCurrentDatetimeAux, translateCurrentDatetime, trimTokenWhitespace, parseFuncArgsAux, parseFuncArgs, extractStringLiteral, trimQuotes, strftimeCall, dateTruncReplacement, translateDateTruncAux, translateDateTrunc, extractFieldFormat, extractDepthScan, castStrftimeTokens, translateExtractAux, translateExtract, translateLeftRightAux, translateLeftRight, coalescePiece, concatJoin, translateConcatAux, translateConcat, translateStringFuncs, runtimePatterns, pgReplacer, containsSub, mapPGDateFormat, translateAggFuncsAux, translateAggFuncs, translateFunctions, isWsAt, backWsSkip, dirTokenAt, findColumnExprStart, nullsCaseTokens, translateNullsOrderingAux, translateNullsOrdering, paramToken, translateParams, Translate]
set_option maxRecDepth 8000 in
set_option maxHeartbeats 2000000 in
/-- C2: the pipeline never rewrites regex operators: a statement using ~ is
returned unchanged, and no pg_regex_match call is produced even for !~*. -/
theorem C2_regex_untranslated :
    Translate "SELECT * FROM t WHERE name ~ '^foo'".toList =
      "SELECT * FROM t WHERE name ~ '^foo'".toList ∧
    containsSub (Translate "SELECT * FROM t WHERE name !~* '^foo'".toList)
      "pg_regex_match".toList = false := by
  constructor <;> simp +decide [mkTok, sqlKeywords, isIdentChar, isNumChar, scanBlockComment, scanEString, scanSString, scanQIdent, scanExp, findTagIdx, dollarTag, dollarQuoteWith, tryDollarQuote, doubleQuotes, Tokenize, Reassemble, skipWsIdx, isKwAt, isParenAt, peekKeyword, parenScan, skipParenGroup, pgTypeToSQLite, lookupPgType, MapType, translateTypesAux, translateTypes, translateSerialAux, translateSerial, translateDefaultNowAux, translateDefaultNow, translateDDL, openBack, isIdentOrKwAt, extractLeftExpr, extractTypeMulti, typeNameEnd, extractTypeName, assembleTypeName, mapCastType, translateCastAux, translateCast, ilikeToken, translateILIKE, booleanToken, translateBooleans, resolveEscapes, isEStringRaw, escapeStringToken, translateEscapeStrings, translateIsTrueFalseAux, translateIsTrueFalse, translateExpressions, translateNowAux, translateNow, translateCurrentDatetimeAux, translateCurrentDatetime, trimTokenWhitespace, parseFuncArgsAux, parseFuncArgs, extractStringLiteral, trimQuotes, strftimeCall, dateTruncReplacement, translateDateTruncAux, translateDateTrunc, extractFieldFormat, extractDepthScan, castStrftimeTokens, translateExtractAux, translateExtract, translateLeftRightAux, translateLeftRight, coalescePiece, concatJoin, translateConcatAux, translateConcat, translateStringFuncs, runtimePatterns, pgReplacer, containsSub, mapPGDateFormat, translateAggFuncsAux, translateAggFuncs, translateFunctions, isWsAt, backWsSkip, dirTokenAt, findColumnExprStart, nullsCaseTokens, translateNullsOrderingAux, translateNullsOrdering, paramToken, translateParams, Translate]

set_option maxRecDepth 8000 in
set_option maxHeartbeats 2000000 in
/-- C3: INTERVAL arithmetic is not rewritten to datetime(): the type pass
clobbers the INTERVAL keyword to TEXT instead, as the interval pass is never
invoked by Translate. -/
theorem C3_interval_untranslated :
    Translate "SELECT ts + INTERVAL '2 hours' FROM t".toList =
      "SELECT ts + TEXT '2 hours' FROM t".toList ∧
    Translate "SELECT ts + INTERVAL '2 hours' FROM t".toList ≠
      "SELECT datetime(ts, '+2 hours') FROM t".toList := by
  have h : Translate "SELECT ts + INTERVAL '2 hours' FROM t".toList =
      "SELECT ts + TEXT '2 hours' FROM t".toList := by
    simp +decide [mkTok, sqlKeywords, isIdentChar, isNumChar, scanBlockComment, scanEString, scanSString, scanQIdent, scanExp, findTagIdx, dollarTag, dollarQuoteWith, tryDollarQuote, doubleQuotes, Tokenize, Reassemble, skipWsIdx, isKwAt, isParenAt, peekKeyword, parenScan, skipParenGroup, pgTypeToSQLite, lookupPgType, MapType, translateTypesAux, translateTypes, translateSerialAux, translateSerial, translateDefaultNowAux, translateDefaultNow, translateDDL, openBack, isIdentOrKwAt, extractLeftExpr, extractTypeMulti, typeNameEnd, extractTypeName, assembleTypeName, mapCastType, translateCastAux, translateCast, ilikeToken, translateILIKE, booleanToken, translateBooleans, resolveEscapes, isEStringRaw, escapeStringToken, translateEscapeStrings, translateIsTrueFalseAux, translateIsTrueFalse, translateExpressions, translateNowAux, translateNow, translateCurrentDatetimeAux, translateCurrentDatetime, trimTokenWhitespace, parseFuncArgsAux, parseFuncArgs, extractStringLiteral, trimQuotes, strftimeCall, dateTruncReplacement, translateDateTruncAux, translateDateTrunc, extractFieldFormat, extractDepthScan, castStrftimeTokens, translateExtractAux, translateExtract, translateLeftRightAux, translateLeftRight, coalescePiece, concatJoin, translateConcatAux, translateConcat, translateStringFuncs, runtimePatterns, pgReplacer, containsSub, mapPGDateFormat, translateAggFuncsAux, translateAggFuncs, translateFunctions, isWsAt, backWsSkip, dirTokenAt, findColumnExprStart, nullsCaseTokens, translateNullsOrderingAux, translateNullsOrdering, paramToken, translateParams, Translate]
  exact ⟨h, by rw [h]; decide⟩

set_option maxRecDepth 8000 in
set_option maxHeartbeats 2000000 in
/-- C4: a leading EXPLAIN ANALYZE is not rewritten: the statement passes
through unchanged and the output does not begin with EXPLAIN QUERY PLAN. -/
theorem C4_explain_untranslated :
    Translate "EXPLAIN ANALYZE SELECT * FROM t".toList =
      "EXPLAIN ANALYZE SELECT * FROM t".toList ∧
    ¬ ("EXPLAIN QUERY PLAN".toList <+:
        Translate "EXPLAIN ANALYZE SELECT * FROM t".toList) := by
  have h : Translate "EXPLAIN ANALYZE SELECT * FROM t".toList =
      "EXPLAIN ANALYZE SELECT * FROM t".toList := by
    simp +decide [mkTok, sqlKeywords, isIdentChar, isNumChar, scanBlockComment, scanEString, scanSString, scanQIdent, scanExp, findTagIdx, dollarTag, dollarQuoteWith, tryDollarQuote, doubleQuotes, Tokenize, Reassemble, skipWsIdx, isKwAt, isParenAt, peekKeyword, parenScan, skipParenGroup, pgTypeToSQLite, lookupPgType, MapType, translateTypesAux, translateTypes, translateSerialAux, translateSerial, translateDefaultNowAux, translateDefaultNow, translateDDL, openBack, isIdentOrKwAt, extractLeftExpr, extractTypeMulti, typeNameEnd, extractTypeName, assembleTypeName, mapCastType, translateCastAux, translateCast, ilikeToken, translateILIKE, booleanToken, translateBooleans, resolveEscapes, isEStringRaw, escapeStringToken, translateEscapeStrings, translateIsTrueFalseAux, translateIsTrueFalse, translateExpressions, translateNowAux, translateNow, translateCurrentDatetimeAux, translateCurrentDatetime, trimTokenWhitespace, parseFuncArgsAux, parseFuncArgs, extractStringLiteral, trimQuotes, strftimeCall, dateTruncReplacement, translateDateTruncAux, translateDateTrunc, extractFieldFormat, extractDepthScan, castStrftimeTokens, translateExtractAux, translateExtract, translateLeftRightAux, translateLeftRight, coalescePiece, concatJoin, translateConcatAux, translateConcat, translateStringFuncs, runtimePatterns, pgReplacer, containsSub, mapPGDateFormat, translateAggFuncsAux, translateAggFuncs, translateFunctions, isWsAt, backWsSkip, dirTokenAt, findColumnExprStart, nullsCaseTokens, translateNullsOrderingAux, translateNullsOrdering, paramToken, translateParams, Translate]
  exact ⟨h, by rw [h]; decide⟩

set_option maxRecDepth 8000 in
set_option maxHeartbeats 4000000 in
/-- C5 (amended): DEFAULT NOW() is wrapped in parentheses, but the bare
CURRENT_TIMESTAMP, CURRENT_DATE and CURRENT_TIME defaults are rewritten to
unparenthesized datetime(\x27now\x27), date(\x27now\x27) and time(\x27now\x27) calls. -/
theorem C5_default_time_rewrites :
    Translate "CREATE TABLE t (ts TIMESTAMP DEFAULT NOW())".toList =
      "CREATE TABLE t (ts TEXT DEFAULT (datetime('now')))".toList ∧
    Translate "CREATE TABLE t (ts TIMESTAMP DEFAULT CURRENT_TIMESTAMP)".toList =
      "CREATE TABLE t (ts TEXT DEFAULT datetime('now'))".toList ∧
    Translate "CREATE TABLE t (d DATE DEFAULT CURRENT_DATE)".toList =
      "CREATE TABLE t (d TEXT DEFAULT date('now'))".toList ∧
    Translate "CREATE TABLE t (tm TIME DEFAULT CURRENT_TIME)".toList =
      "CREATE TABLE t (tm TEXT DEFAULT time('now'))".toList := by
  refine ⟨?_, ?_, ?_, ?_⟩ <;> simp +decide [mkTok, sqlKeywords, isIdentChar, isNumChar, scanBlockComment, scanEString, scanSString, scanQIdent, scanExp, findTagIdx, dollarTag, dollarQuoteWith, tryDollarQuote, doubleQuotes, Tokenize, Reassemble, skipWsIdx, isKwAt, isParenAt, peekKeyword, parenScan, skipParenGroup, pgTypeToSQLite, lookupPgType, MapType, translateTypesAux, translateTypes, translateSerialAux, translateSerial, translateDefaultNowAux, translateDefaultNow, translateDDL, openBack, isIdentOrKwAt, extractLeftExpr, extractTypeMulti, typeNameEnd, extractTypeName, assembleTypeName, mapCastType, translateCastAux, translateCast, ilikeToken, translateILIKE, booleanToken, translateBooleans, resolveEscapes, isEStringRaw, escapeStringToken, translateEscapeStrings, translateIsTrueFalseAux, translateIsTrueFalse, translateExpressions, translateNowAux, translateNow, translateCurrentDatetimeAux, translateCurrentDatetime, trimTokenWhitespace, parseFuncArgsAux, parseFuncArgs, extractStringLiteral, trimQuotes, strftimeCall, dateTruncReplacement, translateDateTruncAux, translateDateTrunc, extractFieldFormat, extractDepthScan, castStrftimeTokens, translateExtractAux, translateExtract, translateLeftRightAux, translateLeftRight, coalescePiece, concatJoin, translateConcatAux, translateConcat, translateStringFuncs, runtimePatterns, pgReplacer, containsSub, mapPGDateFormat, translateAggFuncsAux, translateAggFuncs, translateFunctions, isWsAt, backWsSkip, dirTokenAt, findColumnExprStart, nullsCaseTokens, translateNullsOrderingAux, translateNullsOrdering, paramToken, translateParams, Translate]

set_option maxRecDepth 8000 in
set_option maxHeartbeats 2000000 in
/-- C5 counterexample: DEFAULT CURRENT_TIMESTAMP does not come out
parenthesized, contradicting the claim that every emitted default-time call
directly after DEFAULT is wrapped in parentheses. -/
theorem C5_current_timestamp_unparenthesized :
    Translate "CREATE TABLE t (ts TIMESTAMP DEFAULT CURRENT_TIMESTAMP)".toList ≠
      "CREATE TABLE t (ts TEXT DEFAULT (datetime('now')))".toList := by
  simp +decide [mkTok, sqlKeywords, isIdentChar, isNumChar, scanBlockComment, scanEString, scanSString, scanQIdent, scanExp, findTagIdx, dollarTag, dollarQuoteWith, tryDollarQuote, doubleQuotes, Tokenize, Reassemble, skipWsIdx, isKwAt, isParenAt, peekKeyword, parenScan, skipParenGroup, pgTypeToSQLite, lookupPgType, MapType, translateTypesAux, translateTypes, translateSerialAux, translateSerial, translateDefaultNowAux, translateDefaultNow, translateDDL, openBack, isIdentOrKwAt, extractLeftExpr, extractTypeMulti, typeNameEnd, extractTypeName, assembleTypeName, mapCastType, translateCastAux, translateCast, ilikeToken, translateILIKE, booleanToken, translateBooleans, resolveEscapes, isEStringRaw, escapeStringToken, translateEscapeStrings, translateIsTrueFalseAux, translateIsTrueFalse, translateExpressions, translateNowAux, translateNow, translateCurrentDatetimeAux, translateCurrentDatetime, trimTokenWhitespace, parseFuncArgsAux, parseFuncArgs, extractStringLiteral, trimQuotes, strftimeCall, dateTruncReplacement, translateDateTruncAux, translateDateTrunc, extractFieldFormat, extractDepthScan, castStrftimeTokens, translateExtractAux, translateExtract, translateLeftRightAux, translateLeftRight, coalescePiece, concatJoin, translateConcatAux, translateConcat, translateStringFuncs, runtimePatterns, pgReplacer, containsSub, mapPGDateFormat, translateAggFuncsAux, translateAggFuncs, translateFunctions, isWsAt, backWsSkip, dirTokenAt, findColumnExprStart, nullsCaseTokens, translateNullsOrderingAux, translateNullsOrdering, paramToken, translateParams, Translate]

set_option maxRecDepth 8000 in
set_option maxHeartbeats 2000000 in
/-- C6: a later PRIMARY KEY in the same SERIAL column definition is not
stripped when other constraints intervene, leaving a duplicated PRIMARY KEY
in the output. -/
theorem C6_serial_pk_not_stripped :
    Translate "CREATE TABLE t (id SERIAL NOT NULL PRIMARY KEY, name TEXT)".toList =
      "CREATE TABLE t (id INTEGER PRIMARY KEY AUTOINCREMENT NOT NULL PRIMARY KEY, name TEXT)".toList := by
  simp +decide [mkTok, sqlKeywords, isIdentChar, isNumChar, scanBlockComment, scanEString, scanSString, scanQIdent, scanExp, findTagIdx, dollarTag, dollarQuoteWith, tryDollarQuote, doubleQuotes, Tokenize, Reassemble, skipWsIdx, isKwAt, isParenAt, peekKeyword, parenScan, skipParenGroup, pgTypeToSQLite, lookupPgType, MapType, translateTypesAux, translateTypes, translateSerialAux, translateSerial, translateDefaultNowAux, translateDefaultNow, translateDDL, openBack, isIdentOrKwAt, extractLeftExpr, extractTypeMulti, typeNameEnd, extractTypeName, assembleTypeName, mapCastType, translateCastAux, translateCast, ilikeToken, translateILIKE, booleanToken, translateBooleans, resolveEscapes, isEStringRaw, escapeStringToken, translateEscapeStrings, translateIsTrueFalseAux, translateIsTrueFalse, translateExpressions, translateNowAux, translateNow, translateCurrentDatetimeAux, translateCurrentDatetime, trimTokenWhitespace, parseFuncArgsAux, parseFuncArgs, extractStringLiteral, trimQuotes, strftimeCall, dateTruncReplacement, translateDateTruncAux, translateDateTrunc, extractFieldFormat, extractDepthScan, castStrftimeTokens, translateExtractAux, translateExtract, translateLeftRightAux, translateLeftRight, coalescePiece, concatJoin, translateConcatAux, translateConcat, translateStringFuncs, runtimePatterns, pgReplacer, containsSub, mapPGDateFormat, translateAggFuncsAux, translateAggFuncs, translateFunctions, isWsAt, backWsSkip, dirTokenAt, findColumnExprStart, nullsCaseTokens, translateNullsOrderingAux, translateNullsOrdering, paramToken, translateParams, Translate]
set_option maxRecDepth 8000 in
set_option maxHeartbeats 2000000 in
/-- C7: the expression pass rewrites every E-string token by stripping the
E/e prefix and quotes, resolving exactly the escapes backslash-n, -t, -r,
-backslash and -quote, passing any other backslash pair through literally,
and requoting with interior quotes doubled; end-to-end an E-string gains a
real newline character. -/
theorem C7_escape_strings :
    (∀ (pre : Char) (v body : List Char), pre = 'E' ∨ pre = 'e' →
      escapeStringToken ⟨.string, v, pre :: '\x27' :: (body ++ ['\x27'])⟩ =
        ⟨.string, '\x27' :: (doubleQuotes (resolveEscapes body) ++ ['\x27']),
          '\x27' :: (doubleQuotes (resolveEscapes body) ++ ['\x27'])⟩) ∧
    (∀ r, resolveEscapes ('\\' :: 'n' :: r) = '\n' :: resolveEscapes r) ∧
    (∀ r, resolveEscapes ('\\' :: 't' :: r) = '\t' :: resolveEscapes r) ∧
    (∀ r, resolveEscapes ('\\' :: 'r' :: r) = '\r' :: resolveEscapes r) ∧
    (∀ r, resolveEscapes ('\\' :: '\\' :: r) = '\\' :: resolveEscapes r) ∧
    (∀ r, resolveEscapes ('\\' :: '\x27' :: r) = '\x27' :: resolveEscapes r) ∧
    (∀ (c : Char) r, c ∉ ['n', 't', 'r', '\\', '\x27'] →
      resolveEscapes ('\\' :: c :: r) = '\\' :: c :: resolveEscapes r) ∧
    (∀ r, doubleQuotes ('\x27' :: r) = '\x27' :: '\x27' :: doubleQuotes r) ∧
    (∀ (c : Char) r, c ≠ '\x27' → doubleQuotes (c :: r) = c :: doubleQuotes r) ∧
    Translate "SELECT E'a\\nb'".toList = "SELECT 'a\nb'".toList := by
  refine ⟨?_, ?_, ?_, ?_, ?_, ?_, ?_, ?_, ?_, ?_⟩
  · rintro pre v body (rfl | rfl) <;>
      simp [escapeStringToken, isEStringRaw, List.dropLast_concat]
  · intro r; simp [resolveEscapes]
  · intro r; simp [resolveEscapes]
  · intro r; simp [resolveEscapes]
  · intro r; simp [resolveEscapes]
  · intro r; simp [resolveEscapes]
  · intro c r hc
    simp only [List.mem_cons, List.mem_singleton, not_or] at hc
    obtain ⟨h1, h2, h3, h4, h5⟩ := hc
    simp [resolveEscapes, h1, h2, h3, h4, h5]
  · intro r; simp [doubleQuotes]
  · intro c r hc; simp [doubleQuotes, hc]
  · simp +decide [mkTok, sqlKeywords, isIdentChar, isNumChar, scanBlockComment, scanEString, scanSString, scanQIdent, scanExp, findTagIdx, dollarTag, dollarQuoteWith, tryDollarQuote, doubleQuotes, Tokenize, Reassemble, skipWsIdx, isKwAt, isParenAt, peekKeyword, parenScan, skipParenGroup, pgTypeToSQLite, lookupPgType, MapType, translateTypesAux, translateTypes, translateSerialAux, translateSerial, translateDefaultNowAux, translateDefaultNow, translateDDL, openBack, isIdentOrKwAt, extractLeftExpr, extractTypeMulti, typeNameEnd, extractTypeName, assembleTypeName, mapCastType, translateCastAux, translateCast, ilikeToken, translateILIKE, booleanToken, translateBooleans, resolveEscapes, isEStringRaw, escapeStringToken, translateEscapeStrings, translateIsTrueFalseAux, translateIsTrueFalse, translateExpressions, translateNowAux, translateNow, translateCurrentDatetimeAux, translateCurrentDatetime, trimTokenWhitespace, parseFuncArgsAux, parseFuncArgs, extractStringLiteral, trimQuotes, strftimeCall, dateTruncReplacement, translateDateTruncAux, translateDateTrunc, extractFieldFormat, extractDepthScan, castStrftimeTokens, translateExtractAux, translateExtract, translateLeftRightAux, translateLeftRight, coalescePiece, concatJoin, translateConcatAux, translateConcat, translateStringFuncs, runtimePatterns, pgReplacer, containsSub, mapPGDateFormat, translateAggFuncsAux, translateAggFuncs, translateFunctions, isWsAt, backWsSkip, dirTokenAt, findColumnExprStart, nullsCaseTokens, translateNullsOrderingAux, translateNullsOrdering, paramToken, translateParams, Translate]

theorem C7_escape_strings_witness :
    ('x' ∉ ['n', 't', 'r', '\\', '\x27']) ∧
    resolveEscapes ['\\', 'x', 'a'] = ['\\', 'x', 'a'] := by
  refine ⟨by decide, ?_⟩
  rw [C7_escape_strings.2.2.2.2.2.2.1 'x' ['a'] (by decide)]
  rfl

/-- C9: the parameter pass is a pure per-token frame: the output has the same
length, every non-Parameter token is returned identically at its position,
and every Parameter token becomes the Operator token "?". -/
theorem C9_params_frame (ts : List Token) :
    (translateParams ts).length = ts.length ∧
    ∀ (i : Nat) (h : i < ts.length),
      (ts[i].kind ≠ .param → (translateParams ts)[i]? = some ts[i]) ∧
      (ts[i].kind = .param → (translateParams ts)[i]? = some (mkTok .operator "?")) := by
  refine ⟨by simp [translateParams], ?_⟩
  intro i h
  constructor
  · intro hk
    simp [translateParams, List.getElem?_map, List.getElem?_eq_getElem h,
      paramToken, hk]
  · intro hk
    simp [translateParams, List.getElem?_map, List.getElem?_eq_getElem h,
      paramToken, hk]

theorem C9_params_frame_witness :
    (translateParams [mkTok .param "\x241", mkTok .ident "x"]).length =
      ([mkTok .param "\x241", mkTok .ident "x"] : List Token).length ∧
    (translateParams [mkTok .param "\x241", mkTok .ident "x"])[0]? =
      some (mkTok .operator "?") ∧
    (translateParams [mkTok .param "\x241", mkTok .ident "x"])[1]? =
      some (mkTok .ident "x") := by
  obtain ⟨hlen, hfr⟩ := C9_params_frame [mkTok .param "\x241", mkTok .ident "x"]
  exact ⟨hlen, (hfr 0 (by decide)).2 (by decide), (hfr 1 (by decide)).1 (by decide)⟩
/-- Keyword values that trigger a rewrite in some pass (type keywords of
`translateTypes`, the SERIAL family, default-time functions, booleans,
ILIKE, EXTRACT and NULLS). -/
def badKeywordValues : List (List Char) :=
  [ "DOUBLE", "CHARACTER", "VARCHAR", "CHAR", "NUMERIC", "DECIMAL",
    "TIMESTAMP", "INTERVAL", "TIME", "BOOLEAN", "BOOL", "TIMESTAMPTZ",
    "DATE", "TIMETZ", "UUID", "BYTEA", "JSON", "JSONB", "SMALLINT",
    "INT2", "INT4", "INT8", "BIGINT", "FLOAT4", "FLOAT8",
    "SERIAL", "BIGSERIAL", "SMALLSERIAL",
    "NOW", "CURRENT_DATE", "CURRENT_TIME", "CURRENT_TIMESTAMP",
    "TRUE", "FALSE", "ILIKE", "EXTRACT", "NULLS" ].map String.toList

/-- Lower-cased identifier values that trigger a function rewrite. -/
def badIdentLower : List (List Char) :=
  [ "date_trunc", "concat", "string_agg", "array_agg", "date_part",
    "to_char" ].map String.toList

/-- A token that no pass rewrites in place: not a rewritten keyword, not a
rewritten function identifier, not the `::` operator, not an E-string, and
not a parameter. -/
def cleanToken (t : Token) : Bool :=
  (t.kind != .keyword ||
    (!(badKeywordValues.contains t.value) && (lookupPgType t.value).isNone)) &&
  (t.kind != .ident || !(badIdentLower.contains (t.value.map Char.toLower))) &&
  (t.kind != .operator || t.value != "::".toList) &&
  (t.kind != .string || !(isEStringRaw t.raw)) &&
  (t.kind != .param)

/-- Position `i` holds a `left`/`right` name that is applied to an argument
list (the only situation in which `translateLeftRight` rewrites). -/
def leftRightTrigger (ts : List Token) (i : Nat) : Bool :=
  match ts[i]? with
  | some t =>
    (t.kind == .ident || t.kind == .keyword) &&
      (t.value.map Char.toLower == "left".toList ||
       t.value.map Char.toLower == "right".toList) &&
      isParenAt ts (skipWsIdx ts (i + 1)) "("
  | none => false

/-- No position of the vector is a `left`/`right` function call. -/
def leftRightClean (ts : List Token) : Bool :=
  (List.range ts.length).all fun i => !leftRightTrigger ts i

/-- No pass of the pipeline rewrites any token of the vector. -/
def untouched (ts : List Token) : Bool :=
  ts.all cleanToken && leftRightClean ts

theorem memOfGetElemEq (ts : List Token) (j : Nat) (t : Token)
    (h : ts[j]? = some t) : t ∈ ts := by
  have hj : j < ts.length := by
    by_contra hge
    rw [List.getElem?_eq_none (Nat.le_of_not_lt hge)] at h
    exact Option.noConfusion h
  rw [List.getElem?_eq_getElem hj] at h
  rw [← Option.some_inj.mp h]
  exact List.getElem_mem hj

theorem cleanTokenParts (t : Token) (hct : cleanToken t = true) :
    (t.kind = .keyword → badKeywordValues.contains t.value = false ∧
      lookupPgType t.value = none) ∧
    (t.kind = .ident → badIdentLower.contains (t.value.map Char.toLower) = false) ∧
    (t.kind = .operator → t.value ≠ "::".toList) ∧
    (t.kind = .string → isEStringRaw t.raw = false) ∧
    t.kind ≠ .param := by
  simp only [cleanToken, Bool.and_eq_true, Bool.or_eq_true, bne_iff_ne,
    ne_eq, Bool.not_eq_true', Option.isNone_iff_eq_none] at hct
  obtain ⟨⟨⟨⟨h1, h2⟩, h3⟩, h4⟩, h5⟩ := hct
  refine ⟨fun hk => ?_, fun hk => ?_, fun hk => ?_, fun hk => ?_, h5⟩
  · rcases h1 with h | h
    · exact absurd hk h
    · exact ⟨h.1, h.2⟩
  · rcases h2 with h | h
    · exact absurd hk h
    · exact h
  · rcases h3 with h | h
    · exact absurd hk h
    · exact h
  · rcases h4 with h | h
    · exact absurd hk h
    · exact h

theorem isKwAt_false (ts : List Token) (hc : ∀ t ∈ ts, cleanToken t = true)
    (j : Nat) (v : String) (hv : v.toList ∈ badKeywordValues) :
    isKwAt ts j v = false := by
  unfold isKwAt
  cases hj : ts[j]? with
  | none => rfl
  | some t =>
    have hct := cleanTokenParts t (hc t (memOfGetElemEq ts j t hj))
    by_cases hk : t.kind = .keyword
    · have hb := (hct.1 hk).1
      have hvt : badKeywordValues.contains v.toList = true := by
        simpa [List.contains] using List.elem_eq_true_of_mem hv
      have hne : t.value ≠ v.toList := by
        intro he
        rw [he, hvt] at hb
        exact Bool.noConfusion hb
      show (t.kind == TokenKind.keyword && t.value == v.toList) = false
      simp only [hk, beq_self_eq_true, Bool.true_and, beq_eq_false_iff_ne, ne_eq]
      exact hne
    · simp [hk]

theorem appendGetElemDrop (ts : List Token) (i : Nat) (h : i < ts.length)
    (out : List Token) :
    (out ++ [ts[i]]) ++ ts.drop (i + 1) = out ++ ts.drop i := by
  rw [List.append_assoc]
  congr 1
  simpa using List.getElem_cons_drop ts i h
theorem mapClean (f : Token → Token) (ts : List Token)
    (hf : ∀ t ∈ ts, f t = t) : ts.map f = ts := by
  induction ts with
  | nil => rfl
  | cons a l ih =>
    rw [List.map_cons, hf a (by simp), ih (fun t ht => hf t (by simp [ht]))]

theorem ilikeToken_id (t : Token) (hct : cleanToken t = true) :
    ilikeToken t = t := by
  have hp := cleanTokenParts t hct
  unfold ilikeToken
  rw [if_neg]
  rintro ⟨hk, hv⟩
  have hb := (hp.1 hk).1
  rw [hv] at hb
  revert hb
  decide

theorem booleanToken_id (t : Token) (hct : cleanToken t = true) :
    booleanToken t = t := by
  have hp := cleanTokenParts t hct
  unfold booleanToken
  rw [if_neg, if_neg]
  · rintro ⟨hk, hv⟩
    have hb := (hp.1 hk).1
    rw [hv] at hb
    revert hb
    decide
  · rintro ⟨hk, hv⟩
    have hb := (hp.1 hk).1
    rw [hv] at hb
    revert hb
    decide

theorem escapeStringToken_id (t : Token) (hct : cleanToken t = true) :
    escapeStringToken t = t := by
  have hp := cleanTokenParts t hct
  unfold escapeStringToken
  rw [if_neg]
  rintro ⟨hk, hv⟩
  rw [hp.2.2.2.1 hk] at hv
  exact Bool.noConfusion hv

theorem paramToken_id (t : Token) (hct : cleanToken t = true) :
    paramToken t = t := by
  have hp := cleanTokenParts t hct
  unfold paramToken
  exact if_neg hp.2.2.2.2

theorem translateILIKE_id (ts : List Token)
    (hc : ∀ t ∈ ts, cleanToken t = true) : translateILIKE ts = ts :=
  mapClean _ ts fun t ht => ilikeToken_id t (hc t ht)

theorem translateBooleans_id (ts : List Token)
    (hc : ∀ t ∈ ts, cleanToken t = true) : translateBooleans ts = ts :=
  mapClean _ ts fun t ht => booleanToken_id t (hc t ht)

theorem translateEscapeStrings_id (ts : List Token)
    (hc : ∀ t ∈ ts, cleanToken t = true) : translateEscapeStrings ts = ts :=
  mapClean _ ts fun t ht => escapeStringToken_id t (hc t ht)

theorem translateParams_id (ts : List Token)
    (hc : ∀ t ∈ ts, cleanToken t = true) : translateParams ts = ts :=
  mapClean _ ts fun t ht => paramToken_id t (hc t ht)

theorem translateSerialAux_id (ts : List Token)
    (hc : ∀ t ∈ ts, cleanToken t = true) (i : Nat) (out : List Token) :
    translateSerialAux ts i out = out ++ ts.drop i := by
  rw [translateSerialAux]
  by_cases h : i < ts.length
  · rw [dif_pos h]
    dsimp only
    have hp := cleanTokenParts ts[i] (hc ts[i] (List.getElem_mem h))
    rw [if_neg]
    · rw [translateSerialAux_id ts hc (i + 1) (out ++ [ts[i]]),
        appendGetElemDrop ts i h out]
    · rintro ⟨hk, hv⟩
      have hb := (hp.1 hk).1
      rcases hv with hv | hv | hv <;> (rw [hv] at hb; revert hb; decide)
  · rw [dif_neg h, List.drop_eq_nil_of_le (Nat.le_of_not_lt h), List.append_nil]
termination_by ts.length - i

theorem translateSerial_id (ts : List Token)
    (hc : ∀ t ∈ ts, cleanToken t = true) : translateSerial ts = ts := by
  rw [translateSerial, translateSerialAux_id ts hc 0 [], List.drop_zero,
    List.nil_append]

theorem translateNowAux_id (ts : List Token)
    (hc : ∀ t ∈ ts, cleanToken t = true) (i : Nat) (out : List Token) :
    translateNowAux ts i out = out ++ ts.drop i := by
  rw [translateNowAux]
  by_cases h : i < ts.length
  · rw [dif_pos h]
    dsimp only
    have hp := cleanTokenParts ts[i] (hc ts[i] (List.getElem_mem h))
    rw [if_neg]
    · rw [translateNowAux_id ts hc (i + 1) (out ++ [ts[i]]),
        appendGetElemDrop ts i h out]
    · rintro ⟨hk, hv⟩
      have hb := (hp.1 hk).1
      rw [hv] at hb
      revert hb
      decide
  · rw [dif_neg h, List.drop_eq_nil_of_le (Nat.le_of_not_lt h), List.append_nil]
termination_by ts.length - i

theorem translateNow_id (ts : List Token)
    (hc : ∀ t ∈ ts, cleanToken t = true) : translateNow ts = ts := by
  rw [translateNow, translateNowAux_id ts hc 0 [], List.drop_zero,
    List.nil_append]

theorem translateCurrentDatetimeAux_id (ts : List Token)
    (hc : ∀ t ∈ ts, cleanToken t = true) (i : Nat) (out : List Token) :
    translateCurrentDatetimeAux ts i out = out ++ ts.drop i := by
  rw [translateCurrentDatetimeAux]
  by_cases h : i < ts.length
  · rw [dif_pos h]
    dsimp only
    have hp := cleanTokenParts ts[i] (hc ts[i] (List.getElem_mem h))
    rw [if_neg, if_neg, if_neg]
    · rw [translateCurrentDatetimeAux_id ts hc (i + 1) (out ++ [ts[i]]),
        appendGetElemDrop ts i h out]
    · rintro ⟨hk, hv⟩
      have hb := (hp.1 hk).1
      rw [hv] at hb
      revert hb
      decide
    · rintro ⟨hk, hv⟩
      have hb := (hp.1 hk).1
      rw [hv] at hb
      revert hb
      decide
    · rintro ⟨hk, hv⟩
      have hb := (hp.1 hk).1
      rw [hv] at hb
      revert hb
      decide
  · rw [dif_neg h, List.drop_eq_nil_of_le (Nat.le_of_not_lt h), List.append_nil]
termination_by ts.length - i

theorem translateCurrentDatetime_id (ts : List Token)
    (hc : ∀ t ∈ ts, cleanToken t = true) : translateCurrentDatetime ts = ts := by
  rw [translateCurrentDatetime, translateCurrentDatetimeAux_id ts hc 0 [],
    List.drop_zero, List.nil_append]
theorem translateCastAux_id (ts : List Token)
    (hc : ∀ t ∈ ts, cleanToken t = true) (i : Nat) (out : List Token) :
    translateCastAux ts i out = out ++ ts.drop i := by
  rw [translateCastAux]
  by_cases h : i < ts.length
  · rw [dif_pos h]
    dsimp only
    have hp := cleanTokenParts ts[i] (hc ts[i] (List.getElem_mem h))
    rw [if_neg]
    · rw [translateCastAux_id ts hc (i + 1) (out ++ [ts[i]]),
        appendGetElemDrop ts i h out]
    · rintro ⟨hk, hv⟩
      exact (hp.2.2.1 hk) hv
  · rw [dif_neg h, List.drop_eq_nil_of_le (Nat.le_of_not_lt h), List.append_nil]
termination_by ts.length - i

theorem translateCast_id (ts : List Token)
    (hc : ∀ t ∈ ts, cleanToken t = true) : translateCast ts = ts := by
  rw [translateCast, translateCastAux_id ts hc 0 [], List.drop_zero,
    List.nil_append]

theorem translateDateTruncAux_id (ts : List Token)
    (hc : ∀ t ∈ ts, cleanToken t = true) (i : Nat) (out : List Token) :
    translateDateTruncAux ts i out = out ++ ts.drop i := by
  rw [translateDateTruncAux]
  by_cases h : i < ts.length
  · rw [dif_pos h]
    dsimp only
    have hp := cleanTokenParts ts[i] (hc ts[i] (List.getElem_mem h))
    rw [if_neg]
    · rw [translateDateTruncAux_id ts hc (i + 1) (out ++ [ts[i]]),
        appendGetElemDrop ts i h out]
    · rintro ⟨hk, hv⟩
      have hb := hp.2.1 hk
      rw [hv] at hb
      revert hb
      decide
  · rw [dif_neg h, List.drop_eq_nil_of_le (Nat.le_of_not_lt h), List.append_nil]
termination_by ts.length - i

theorem translateDateTrunc_id (ts : List Token)
    (hc : ∀ t ∈ ts, cleanToken t = true) : translateDateTrunc ts = ts := by
  rw [translateDateTrunc, translateDateTruncAux_id ts hc 0 [], List.drop_zero,
    List.nil_append]

theorem translateExtractAux_id (ts : List Token)
    (hc : ∀ t ∈ ts, cleanToken t = true) (i : Nat) (out : List Token) :
    translateExtractAux ts i out = out ++ ts.drop i := by
  rw [translateExtractAux]
  by_cases h : i < ts.length
  · rw [dif_pos h]
    dsimp only
    have hp := cleanTokenParts ts[i] (hc ts[i] (List.getElem_mem h))
    rw [if_neg]
    · rw [translateExtractAux_id ts hc (i + 1) (out ++ [ts[i]]),
        appendGetElemDrop ts i h out]
    · rintro ⟨hk, hv⟩
      have hb := (hp.1 hk).1
      rw [hv] at hb
      revert hb
      decide
  · rw [dif_neg h, List.drop_eq_nil_of_le (Nat.le_of_not_lt h), List.append_nil]
termination_by ts.length - i

theorem translateExtract_id (ts : List Token)
    (hc : ∀ t ∈ ts, cleanToken t = true) : translateExtract ts = ts := by
  rw [translateExtract, translateExtractAux_id ts hc 0 [], List.drop_zero,
    List.nil_append]

theorem translateConcatAux_id (ts : List Token)
    (hc : ∀ t ∈ ts, cleanToken t = true) (i : Nat) (out : List Token) :
    translateConcatAux ts i out = out ++ ts.drop i := by
  rw [translateConcatAux]
  by_cases h : i < ts.length
  · rw [dif_pos h]
    have hp := cleanTokenParts ts[i] (hc ts[i] (List.getElem_mem h))
    rw [if_neg]
    · rw [translateConcatAux_id ts hc (i + 1) (out ++ [ts[i]]),
        appendGetElemDrop ts i h out]
    · rintro ⟨hk, hv⟩
      have hb := hp.2.1 hk
      rw [hv] at hb
      revert hb
      decide
  · rw [dif_neg h, List.drop_eq_nil_of_le (Nat.le_of_not_lt h), List.append_nil]
termination_by ts.length - i

theorem translateConcat_id (ts : List Token)
    (hc : ∀ t ∈ ts, cleanToken t = true) : translateConcat ts = ts := by
  rw [translateConcat, translateConcatAux_id ts hc 0 [], List.drop_zero,
    List.nil_append]

theorem translateAggFuncsAux_id (ts : List Token)
    (hc : ∀ t ∈ ts, cleanToken t = true) (i : Nat) (out : List Token) :
    translateAggFuncsAux ts i out = out ++ ts.drop i := by
  rw [translateAggFuncsAux]
  by_cases h : i < ts.length
  · rw [dif_pos h]
    have hp := cleanTokenParts ts[i] (hc ts[i] (List.getElem_mem h))
    rw [if_neg, if_neg, if_neg, if_neg]
    · rw [translateAggFuncsAux_id ts hc (i + 1) (out ++ [ts[i]]),
        appendGetElemDrop ts i h out]
    · rintro ⟨hk, hv⟩
      have hb := hp.2.1 hk
      rw [hv] at hb
      revert hb
      decide
    · rintro ⟨hk, hv⟩
      have hb := hp.2.1 hk
      rw [hv] at hb
      revert hb
      decide
    · rintro ⟨hk, hv⟩
      have hb := hp.2.1 hk
      rw [hv] at hb
      revert hb
      decide
    · rintro ⟨hk, hv⟩
      have hb := hp.2.1 hk
      rw [hv] at hb
      revert hb
      decide
  · rw [dif_neg h, List.drop_eq_nil_of_le (Nat.le_of_not_lt h), List.append_nil]
termination_by ts.length - i

theorem translateAggFuncs_id (ts : List Token)
    (hc : ∀ t ∈ ts, cleanToken t = true) : translateAggFuncs ts = ts := by
  rw [translateAggFuncs, translateAggFuncsAux_id ts hc 0 [], List.drop_zero,
    List.nil_append]
theorem translateDefaultNowAux_id (ts : List Token)
    (hc : ∀ t ∈ ts, cleanToken t = true) (i : Nat) (out : List Token) :
    translateDefaultNowAux ts i out = out ++ ts.drop i := by
  rw [translateDefaultNowAux]
  by_cases h : i < ts.length
  · rw [dif_pos h]
    dsimp only
    have hnow := isKwAt_false ts hc (skipWsIdx ts (i + 1)) "NOW" (by decide)
    by_cases hg : ts[i].kind = TokenKind.keyword ∧ ts[i].value = "DEFAULT".toList
    · rw [if_pos hg, if_neg (by simp [hnow]),
        translateDefaultNowAux_id ts hc (i + 1) (out ++ [ts[i]]),
        appendGetElemDrop ts i h out]
    · rw [if_neg hg, translateDefaultNowAux_id ts hc (i + 1) (out ++ [ts[i]]),
        appendGetElemDrop ts i h out]
  · rw [dif_neg h, List.drop_eq_nil_of_le (Nat.le_of_not_lt h), List.append_nil]
termination_by ts.length - i

theorem translateDefaultNow_id (ts : List Token)
    (hc : ∀ t ∈ ts, cleanToken t = true) : translateDefaultNow ts = ts := by
  rw [translateDefaultNow, translateDefaultNowAux_id ts hc 0 [], List.drop_zero,
    List.nil_append]

theorem translateIsTrueFalseAux_id (ts : List Token)
    (hc : ∀ t ∈ ts, cleanToken t = true) (i : Nat) (out : List Token) :
    translateIsTrueFalseAux ts i out = out ++ ts.drop i := by
  rw [translateIsTrueFalseAux]
  by_cases h : i < ts.length
  · rw [dif_pos h]
    dsimp only
    by_cases hg : ts[i].kind = TokenKind.keyword ∧ ts[i].value = "IS".toList
    · rw [if_pos hg]
      by_cases hnot : isKwAt ts (skipWsIdx ts (i + 1)) "NOT" = true
      · have ht := isKwAt_false ts hc
          (skipWsIdx ts (skipWsIdx ts (i + 1) + 1)) "TRUE" (by decide)
        have hf := isKwAt_false ts hc
          (skipWsIdx ts (skipWsIdx ts (i + 1) + 1)) "FALSE" (by decide)
        rw [if_pos hnot, if_neg (by simp [ht]), if_neg (by simp [hf]),
          translateIsTrueFalseAux_id ts hc (i + 1) (out ++ [ts[i]]),
          appendGetElemDrop ts i h out]
      · have ht := isKwAt_false ts hc (skipWsIdx ts (i + 1)) "TRUE" (by decide)
        have hf := isKwAt_false ts hc (skipWsIdx ts (i + 1)) "FALSE" (by decide)
        rw [if_neg hnot, if_neg (by simp [ht]), if_neg (by simp [hf]),
          translateIsTrueFalseAux_id ts hc (i + 1) (out ++ [ts[i]]),
          appendGetElemDrop ts i h out]
    · rw [if_neg hg, translateIsTrueFalseAux_id ts hc (i + 1) (out ++ [ts[i]]),
        appendGetElemDrop ts i h out]
  · rw [dif_neg h, List.drop_eq_nil_of_le (Nat.le_of_not_lt h), List.append_nil]
termination_by ts.length - i

theorem translateIsTrueFalse_id (ts : List Token)
    (hc : ∀ t ∈ ts, cleanToken t = true) : translateIsTrueFalse ts = ts := by
  rw [translateIsTrueFalse, translateIsTrueFalseAux_id ts hc 0 [],
    List.drop_zero, List.nil_append]

theorem translateNullsOrderingAux_id (ts : List Token)
    (hc : ∀ t ∈ ts, cleanToken t = true) (i : Nat) (out : List Token) :
    translateNullsOrderingAux ts i out = out ++ ts.drop i := by
  rw [translateNullsOrderingAux]
  by_cases h : i < ts.length
  · rw [dif_pos h]
    have hp := cleanTokenParts ts[i] (hc ts[i] (List.getElem_mem h))
    rw [if_pos]
    · rw [translateNullsOrderingAux_id ts hc (i + 1) (out ++ [ts[i]]),
        appendGetElemDrop ts i h out]
    · rintro ⟨hk, hv⟩
      have hb := (hp.1 hk).1
      rw [hv] at hb
      revert hb
      decide
  · rw [dif_neg h, List.drop_eq_nil_of_le (Nat.le_of_not_lt h), List.append_nil]
termination_by ts.length - i

theorem translateNullsOrdering_id (ts : List Token)
    (hc : ∀ t ∈ ts, cleanToken t = true) : translateNullsOrdering ts = ts := by
  rw [translateNullsOrdering, translateNullsOrderingAux_id ts hc 0 [],
    List.drop_zero, List.nil_append]
theorem translateTypesAux_id (ts : List Token)
    (hc : ∀ t ∈ ts, cleanToken t = true) (i : Nat) (out : List Token) :
    translateTypesAux ts i out = out ++ ts.drop i := by
  rw [translateTypesAux]
  by_cases h : i < ts.length
  · rw [dif_pos h]
    dsimp only
    have hp := cleanTokenParts ts[i] (hc ts[i] (List.getElem_mem h))
    by_cases hk : ts[i].kind = TokenKind.keyword
    · have hb := (hp.1 hk).1
      have hnone := (hp.1 hk).2
      rw [if_neg (by simpa using hk),
        if_neg (by rintro hv; rw [hv] at hb; revert hb; decide),
        if_neg (by rintro hv; rw [hv] at hb; revert hb; decide),
        if_neg (by rintro (hv | hv) <;> (rw [hv] at hb; revert hb; decide)),
        if_neg (by rintro (hv | hv) <;> (rw [hv] at hb; revert hb; decide)),
        if_neg (by rintro hv; rw [hv] at hb; revert hb; decide),
        if_neg (by rintro hv; rw [hv] at hb; revert hb; decide),
        if_neg (by rintro hv; rw [hv] at hb; revert hb; decide),
        hnone]
      rw [translateTypesAux_id ts hc (i + 1) (out ++ [ts[i]]),
        appendGetElemDrop ts i h out]
    · rw [if_pos hk, translateTypesAux_id ts hc (i + 1) (out ++ [ts[i]]),
        appendGetElemDrop ts i h out]
  · rw [dif_neg h, List.drop_eq_nil_of_le (Nat.le_of_not_lt h), List.append_nil]
termination_by ts.length - i

theorem translateTypes_id (ts : List Token)
    (hc : ∀ t ∈ ts, cleanToken t = true) : translateTypes ts = ts := by
  rw [translateTypes, translateTypesAux_id ts hc 0 [], List.drop_zero,
    List.nil_append]

theorem translateLeftRightAux_id (ts : List Token)
    (hc : ∀ t ∈ ts, cleanToken t = true) (hlr : leftRightClean ts = true)
    (i : Nat) (out : List Token) :
    translateLeftRightAux ts i out = out ++ ts.drop i := by
  rw [translateLeftRightAux]
  by_cases h : i < ts.length
  · rw [dif_pos h]
    by_cases hg : (ts[i].kind = TokenKind.ident ∨ ts[i].kind = TokenKind.keyword) ∧
        (ts[i].value.map Char.toLower = "left".toList ∨
         ts[i].value.map Char.toLower = "right".toList)
    · rw [if_pos hg]
      rw [leftRightClean] at hlr
      have hall := List.all_eq_true.mp hlr i (List.mem_range.mpr h)
      have htrig : leftRightTrigger ts i = false := by simpa using hall
      rw [leftRightTrigger, List.getElem?_eq_getElem h] at htrig
      dsimp only at htrig
      obtain ⟨hgk, hgv⟩ := hg
      have hk2 : (ts[i].kind == TokenKind.ident ||
          ts[i].kind == TokenKind.keyword) = true := by
        rcases hgk with hk | hk <;> simp [hk]
      have hv2 : (ts[i].value.map Char.toLower == "left".toList ||
          ts[i].value.map Char.toLower == "right".toList) = true := by
        rcases hgv with hv | hv <;> simp [hv]
      rw [hk2, hv2] at htrig
      simp only [Bool.true_and] at htrig
      rw [if_neg (by simp [htrig]),
        translateLeftRightAux_id ts hc (by rw [leftRightClean]; exact hlr)
          (i + 1) (out ++ [ts[i]]),
        appendGetElemDrop ts i h out]
    · rw [if_neg hg,
        translateLeftRightAux_id ts hc hlr (i + 1) (out ++ [ts[i]]),
        appendGetElemDrop ts i h out]
  · rw [dif_neg h, List.drop_eq_nil_of_le (Nat.le_of_not_lt h), List.append_nil]
termination_by ts.length - i

theorem translateLeftRight_id (ts : List Token)
    (hc : ∀ t ∈ ts, cleanToken t = true) (hlr : leftRightClean ts = true) :
    translateLeftRight ts = ts := by
  rw [translateLeftRight, translateLeftRightAux_id ts hc hlr 0 [],
    List.drop_zero, List.nil_append]
theorem translateDDL_id (ts : List Token)
    (hc : ∀ t ∈ ts, cleanToken t = true) : translateDDL ts = ts := by
  rw [translateDDL, translateTypes_id ts hc, translateSerial_id ts hc,
    translateDefaultNow_id ts hc]

theorem translateExpressions_id (ts : List Token)
    (hc : ∀ t ∈ ts, cleanToken t = true) : translateExpressions ts = ts := by
  rw [translateExpressions, translateCast_id ts hc, translateILIKE_id ts hc,
    translateEscapeStrings_id ts hc, translateIsTrueFalse_id ts hc,
    translateBooleans_id ts hc]

theorem translateStringFuncs_id (ts : List Token)
    (hc : ∀ t ∈ ts, cleanToken t = true) (hlr : leftRightClean ts = true) :
    translateStringFuncs ts = ts := by
  rw [translateStringFuncs, translateLeftRight_id ts hc hlr,
    translateConcat_id ts hc]

theorem translateFunctions_id (ts : List Token)
    (hc : ∀ t ∈ ts, cleanToken t = true) (hlr : leftRightClean ts = true) :
    translateFunctions ts = ts := by
  rw [translateFunctions, translateNow_id ts hc,
    translateCurrentDatetime_id ts hc, translateDateTrunc_id ts hc,
    translateExtract_id ts hc, translateStringFuncs_id ts hc hlr,
    translateAggFuncs_id ts hc]

/-- C8 (amended): a statement whose token vector contains no rewritten
construct at all — no rewritten keyword anywhere (type keywords anywhere, not
only in DDL position), no rewritten function identifier, no ::, no E-string,
no parameter, no left/right call — and no dollar-quoted string is returned
by Translate unchanged character-for-character. -/
theorem C8_passthrough (s : List Char)
    (hd : ∀ p, p < s.length → tryDollarQuote (s.drop p) = none)
    (hu : untouched (Tokenize s) = true) :
    Translate s = s := by
  rw [untouched, Bool.and_eq_true] at hu
  have hc : ∀ t ∈ Tokenize s, cleanToken t = true := List.all_eq_true.mp hu.1
  have hlr : leftRightClean (Tokenize s) = true := hu.2
  rw [Translate, translateDDL_id _ hc, translateExpressions_id _ hc,
    translateFunctions_id _ hc hlr, translateNullsOrdering_id _ hc,
    translateParams_id _ hc]
  exact reassemble_tokenize s hd

set_option maxRecDepth 8000 in
set_option maxHeartbeats 4000000 in
theorem C8_passthrough_witness :
    (∀ p, p < ("SELECT * FROM t WHERE id = 1".toList).length →
      tryDollarQuote (("SELECT * FROM t WHERE id = 1".toList).drop p) = none) ∧
    untouched (Tokenize "SELECT * FROM t WHERE id = 1".toList) = true ∧
    Translate "SELECT * FROM t WHERE id = 1".toList =
      "SELECT * FROM t WHERE id = 1".toList := by
  have hu : untouched (Tokenize "SELECT * FROM t WHERE id = 1".toList) = true := by
    simp +decide [mkTok, sqlKeywords, isIdentChar, isNumChar, scanBlockComment, scanEString, scanSString, scanQIdent, scanExp, findTagIdx, dollarTag, dollarQuoteWith, tryDollarQuote, doubleQuotes, Tokenize, Reassemble, skipWsIdx, isKwAt, isParenAt, peekKeyword, parenScan, skipParenGroup, pgTypeToSQLite, lookupPgType, MapType, translateTypesAux, translateTypes, translateSerialAux, translateSerial, translateDefaultNowAux, translateDefaultNow, translateDDL, openBack, isIdentOrKwAt, extractLeftExpr, extractTypeMulti, typeNameEnd, extractTypeName, assembleTypeName, mapCastType, translateCastAux, translateCast, ilikeToken, translateILIKE, booleanToken, translateBooleans, resolveEscapes, isEStringRaw, escapeStringToken, translateEscapeStrings, translateIsTrueFalseAux, translateIsTrueFalse, translateExpressions, translateNowAux, translateNow, translateCurrentDatetimeAux, translateCurrentDatetime, trimTokenWhitespace, parseFuncArgsAux, parseFuncArgs, extractStringLiteral, trimQuotes, strftimeCall, dateTruncReplacement, translateDateTruncAux, translateDateTrunc, extractFieldFormat, extractDepthScan, castStrftimeTokens, translateExtractAux, translateExtract, translateLeftRightAux, translateLeftRight, coalescePiece, concatJoin, translateConcatAux, translateConcat, translateStringFuncs, runtimePatterns, pgReplacer, containsSub, mapPGDateFormat, translateAggFuncsAux, translateAggFuncs, translateFunctions, isWsAt, backWsSkip, dirTokenAt, findColumnExprStart, nullsCaseTokens, translateNullsOrderingAux, translateNullsOrdering, paramToken, translateParams, Translate, badKeywordValues, badIdentLower, cleanToken, leftRightTrigger, leftRightClean, untouched]
  exact ⟨by decide, hu, C8_passthrough _ (by decide) hu⟩

set_option maxRecDepth 8000 in
set_option maxHeartbeats 2000000 in
/-- C8 counterexample: a type keyword outside any DDL position is still
rewritten — a bare column named date is clobbered to TEXT — so containing no
construct of section 4 as listed does not guarantee a character-for-character
round trip. -/
theorem C8_type_keyword_outside_ddl :
    Translate "SELECT date FROM t".toList = "SELECT TEXT FROM t".toList ∧
    Translate "SELECT date FROM t".toList ≠ "SELECT date FROM t".toList := by
  have h : Translate "SELECT date FROM t".toList = "SELECT TEXT FROM t".toList := by
    simp +decide [mkTok, sqlKeywords, isIdentChar, isNumChar, scanBlockComment, scanEString, scanSString, scanQIdent, scanExp, findTagIdx, dollarTag, dollarQuoteWith, tryDollarQuote, doubleQuotes, Tokenize, Reassemble, skipWsIdx, isKwAt, isParenAt, peekKeyword, parenScan, skipParenGroup, pgTypeToSQLite, lookupPgType, MapType, translateTypesAux, translateTypes, translateSerialAux, translateSerial, translateDefaultNowAux, translateDefaultNow, translateDDL, openBack, isIdentOrKwAt, extractLeftExpr, extractTypeMulti, typeNameEnd, extractTypeName, assembleTypeName, mapCastType, translateCastAux, translateCast, ilikeToken, translateILIKE, booleanToken, translateBooleans, resolveEscapes, isEStringRaw, escapeStringToken, translateEscapeStrings, translateIsTrueFalseAux, translateIsTrueFalse, translateExpressions, translateNowAux, translateNow, translateCurrentDatetimeAux, translateCurrentDatetime, trimTokenWhitespace, parseFuncArgsAux, parseFuncArgs, extractStringLiteral, trimQuotes, strftimeCall, dateTruncReplacement, translateDateTruncAux, translateDateTrunc, extractFieldFormat, extractDepthScan, castStrftimeTokens, translateExtractAux, translateExtract, translateLeftRightAux, translateLeftRight, coalescePiece, concatJoin, translateConcatAux, translateConcat, translateStringFuncs, runtimePatterns, pgReplacer, containsSub, mapPGDateFormat, translateAggFuncsAux, translateAggFuncs, translateFunctions, isWsAt, backWsSkip, dirTokenAt, findColumnExprStart, nullsCaseTokens, translateNullsOrderingAux, translateNullsOrdering, paramToken, translateParams, Translate, badKeywordValues, badIdentLower, cleanToken, leftRightTrigger, leftRightClean, untouched]
  exact ⟨h, by rw [h]; decide⟩
